import Mathlib

/-!
Verification of the analysis-pipeline core of `video_analysis_service.py`
(clippy).  Python strings are modelled as `List Char`, floats as `ℚ`,
dictionaries holding JSON data as an inductive `Json` type, and exceptions
as `Except`.  Each definition translates the Python function of the same
name; stateful loops become explicit recursion (with fuel where the Python
loop is driven by a numeric cursor).
-/

attribute [local semireducible] Rat.add Rat.mul Rat.inv Rat.sub

namespace Clippy

/-- Convert a Lean string literal to our character-list model of Python strings. -/
def sl (s : String) : List Char := s.data

/-- Python strings are modelled as lists of characters. -/
abbrev Str := List Char

/-- Whitespace test used by Python `str.split()` / `str.strip()`. -/
def isSpaceC (c : Char) : Bool := c.isWhitespace

/-- Python `str.strip()`: drop whitespace from both ends. -/
def pyStrip (s : Str) : Str :=
  ((s.dropWhile isSpaceC).reverse.dropWhile isSpaceC).reverse

/-- Python `str.strip(chars)`: drop characters satisfying `p` from both ends. -/
def pyStripP (p : Char → Bool) (s : Str) : Str :=
  ((s.dropWhile p).reverse.dropWhile p).reverse

/-- Python `str.lower()` (modelled character-wise). -/
def pyLower (s : Str) : Str := s.map Char.toLower

/-- `startsWithL p s` holds when `p` is an initial run of `s` (Python `str.startswith`). -/
def startsWithL : Str → Str → Bool
  | [], _ => true
  | _ :: _, [] => false
  | p :: ps, c :: cs => p == c && startsWithL ps cs

/-- Python `needle in hay` for strings: substring containment. -/
def pyIn (needle : Str) : Str → Bool
  | [] => needle.isEmpty
  | c :: rest => startsWithL needle (c :: rest) || pyIn needle rest

/-- `SubSeg p t`: `p` occurs as a contiguous substring of `t`. -/
def SubSeg (p t : Str) : Prop := ∃ a b, t = a ++ p ++ b

/-- `' '.join xs` (Python). -/
def joinSpace : List Str → Str
  | [] => []
  | [x] => x
  | x :: xs => x ++ ' ' :: joinSpace xs

/-- One transcription segment (`{'start': float, 'end': float, 'text': str}`).
The `end` key is called `stop` because `end` is reserved in Lean. -/
structure Segment where
  start : ℚ
  stop : ℚ
  text : Str
deriving DecidableEq

/-- One transcript chunk as built by `chunk_transcript`. -/
structure Chunk where
  number : Nat
  start_time : ℚ
  end_time : ℚ
  text : Str
  segments : List Segment
deriving DecidableEq

/-- The segments whose start lies in the half-open window `[cs, ce)`
(the list comprehension inside `chunk_transcript`). -/
def windowSegs (segments : List Segment) (cs ce : ℚ) : List Segment :=
  segments.filter (fun seg => decide (cs ≤ seg.start ∧ seg.start < ce))

/-- The `while current_start < total_duration` loop of `chunk_transcript`,
with an explicit fuel bound on the number of iterations. -/
def chunkFrom (segments : List Segment) (chunkDur total : ℚ) :
    ℚ → Nat → Nat → List Chunk
  | _, _, 0 => []
  | cs, num, fuel + 1 =>
    if cs < total then
      let ce := cs + chunkDur
      let cseg := windowSegs segments cs ce
      if cseg.isEmpty then
        chunkFrom segments chunkDur total ce num fuel
      else
        { number := num, start_time := cs, end_time := min ce total,
          text := joinSpace (cseg.map (fun s => pyStrip s.text)),
          segments := cseg } :: chunkFrom segments chunkDur total ce (num + 1) fuel
    else []

/-- An upper bound on the number of `while` iterations: enough for the cursor
(advancing by `chunkDur` from 0) to reach `total`. -/
def chunkFuel (chunkDur total : ℚ) : Nat := (total / chunkDur).num.toNat + 1

/-- `chunk_transcript(segments, chunk_minutes)`: split the transcript into
time-based chunks; empty windows are dropped, the cursor keeps advancing. -/
def chunk_transcript (segments : List Segment) (chunk_minutes : ℚ) : List Chunk :=
  match segments.getLast? with
  | none => []
  | some last =>
    let chunkDur := chunk_minutes * 60
    let total := last.stop
    chunkFrom segments chunkDur total 0 1 (chunkFuel chunkDur total)

/-! ### Chunker lemmas (claim C4) -/

lemma filter_window_union (segs : List Segment) (m : ℚ) (P Q R : Segment → Bool)
    (hsort : segs.Pairwise (fun a b => a.start ≤ b.start))
    (hP : ∀ s, P s = true → s.start < m) (hQ : ∀ s, Q s = true → m ≤ s.start)
    (hR : ∀ s, R s = (P s || Q s)) :
    segs.filter P ++ segs.filter Q = segs.filter R := by
  induction segs with
  | nil => simp
  | cons a t ih =>
    rw [List.pairwise_cons] at hsort
    obtain ⟨ha, ht⟩ := hsort
    by_cases hPa : P a = true
    · have hRa : R a = true := by rw [hR]; simp [hPa]
      have hQa : ¬ Q a = true := by
        intro hQa
        exact absurd (hP a hPa) (not_lt.mpr (hQ a hQa))
      simp only [List.filter_cons, hPa, hRa, hQa, Bool.false_eq_true, if_true, if_false,
        List.cons_append]
      rw [ih ht]
    · by_cases hQa : Q a = true
      · have hm : m ≤ a.start := hQ a hQa
        have hPt : ∀ x ∈ t, ¬ P x = true := by
          intro x hx hPx
          exact absurd (hP x hPx) (not_lt.mpr (le_trans hm (ha x hx)))
        have hfP : t.filter P = [] := List.filter_eq_nil_iff.mpr hPt
        have hRa : R a = true := by rw [hR]; simp [hQa]
        have hRQ : t.filter R = t.filter Q := by
          apply List.filter_congr
          intro x hx
          rw [hR]
          have : ¬ P x = true := hPt x hx
          simp [Bool.eq_false_iff.mpr this]
        simp only [List.filter_cons, hRa, hQa, if_true, hPa, if_false]
        rw [hfP, hRQ]
        simp
      · have hRa : ¬ R a = true := by
          rw [hR]
          simp [Bool.eq_false_iff.mpr hPa, Bool.eq_false_iff.mpr hQa]
        simp only [List.filter_cons, hPa, hQa, hRa, if_false]
        exact ih ht

lemma chunkFrom_join (segments : List Segment) (d total : ℚ) (hd : 0 < d)
    (hsort : segments.Pairwise (fun a b => a.start ≤ b.start))
    (hlt : ∀ s ∈ segments, s.start < total) :
    ∀ (fuel : Nat) (cs : ℚ) (num : Nat), total ≤ cs + (fuel : ℚ) * d →
      ((chunkFrom segments d total cs num fuel).map Chunk.segments).flatten
        = segments.filter (fun s => decide (cs ≤ s.start)) := by
  intro fuel
  induction fuel with
  | zero =>
    intro cs num h
    simp only [Nat.cast_zero, zero_mul, add_zero] at h
    have hnil : segments.filter (fun s => decide (cs ≤ s.start)) = [] := by
      rw [List.filter_eq_nil_iff]
      intro s hs
      simp only [decide_eq_true_eq]
      exact not_le.mpr (lt_of_lt_of_le (hlt s hs) h)
    simp [chunkFrom, hnil]
  | succ fuel ih =>
    intro cs num h
    by_cases hcs : cs < total
    · have hnext : total ≤ (cs + d) + (fuel : ℚ) * d := by
        push_cast at h
        linarith
      have hsplit :
          windowSegs segments cs (cs + d)
            ++ segments.filter (fun s => decide (cs + d ≤ s.start))
          = segments.filter (fun s => decide (cs ≤ s.start)) := by
        apply filter_window_union segments (cs + d) _ _ _ hsort
        · intro s hPs
          simp only [windowSegs] at hPs
          have := of_decide_eq_true hPs
          exact this.2
        · intro s hQs
          exact of_decide_eq_true hQs
        · intro s
          by_cases h1 : cs ≤ s.start ∧ s.start < cs + d
          · simp [h1, h1.1]
          · by_cases h2 : cs + d ≤ s.start
            · have hle : cs ≤ s.start := by linarith
              simp [h1, h2, hle]
            · have hnle : ¬ cs ≤ s.start := by
                intro hle
                exact h1 ⟨hle, lt_of_not_le h2⟩
              simp [h1, h2, hnle]
      rw [chunkFrom]
      simp only [hcs, if_true]
      by_cases he : (windowSegs segments cs (cs + d)).isEmpty
      · simp only [he, if_true]
        rw [ih (cs + d) num hnext]
        have hwempty : windowSegs segments cs (cs + d) = [] :=
          List.isEmpty_iff.mp he
        have hs2 := hsplit
        rw [hwempty] at hs2
        simpa using hs2
      · simp only [he, Bool.false_eq_true, if_false, List.map_cons, List.flatten_cons]
        rw [ih (cs + d) (num + 1) hnext]
        exact hsplit
    · rw [chunkFrom]
      simp only [hcs, if_false]
      have hnil : segments.filter (fun s => decide (cs ≤ s.start)) = [] := by
        rw [List.filter_eq_nil_iff]
        intro s hs
        simp only [decide_eq_true_eq]
        exact not_le.mpr (lt_of_lt_of_le (hlt s hs) (not_lt.mp hcs))
      simp [hnil]

lemma chunkFrom_mem (segments : List Segment) (d total : ℚ) (hd : 0 ≤ d) :
    ∀ (fuel : Nat) (cs : ℚ) (num : Nat) (c : Chunk),
      c ∈ chunkFrom segments d total cs num fuel →
      cs ≤ c.start_time ∧ c.end_time = min (c.start_time + d) total ∧
      c.segments = windowSegs segments c.start_time (c.start_time + d) ∧
      c.segments ≠ [] ∧
      c.text = joinSpace (c.segments.map (fun s => pyStrip s.text)) := by
  intro fuel
  induction fuel with
  | zero => intro cs num c hc; simp [chunkFrom] at hc
  | succ fuel ih =>
    intro cs num c hc
    rw [chunkFrom] at hc
    by_cases hcs : cs < total
    · simp only [hcs, if_true] at hc
      by_cases he : (windowSegs segments cs (cs + d)).isEmpty
      · simp only [he, if_true] at hc
        obtain ⟨h1, h2, h3, h4, h5⟩ := ih (cs + d) num c hc
        exact ⟨by linarith, h2, h3, h4, h5⟩
      · simp only [he, Bool.false_eq_true, if_false, List.mem_cons] at hc
        rcases hc with hc | hc
        · subst hc
          refine ⟨le_refl _, rfl, rfl, ?_, rfl⟩
          intro hnil
          exact he (List.isEmpty_iff.mpr hnil)
        · obtain ⟨h1, h2, h3, h4, h5⟩ := ih (cs + d) (num + 1) c hc
          exact ⟨by linarith, h2, h3, h4, h5⟩
    · simp only [hcs, if_false] at hc
      simp at hc

lemma chunkFrom_pairwise (segments : List Segment) (d total : ℚ) (hd : 0 ≤ d) :
    ∀ (fuel : Nat) (cs : ℚ) (num : Nat),
      (chunkFrom segments d total cs num fuel).Pairwise
        (fun a b => a.end_time ≤ b.start_time) := by
  intro fuel
  induction fuel with
  | zero => intro cs num; simp [chunkFrom]
  | succ fuel ih =>
    intro cs num
    rw [chunkFrom]
    by_cases hcs : cs < total
    · simp only [hcs, if_true]
      by_cases he : (windowSegs segments cs (cs + d)).isEmpty
      · simp only [he, if_true]
        exact ih (cs + d) num
      · simp only [he, Bool.false_eq_true, if_false]
        rw [List.pairwise_cons]
        refine ⟨?_, ih (cs + d) (num + 1)⟩
        intro b hb
        obtain ⟨h1, _, _, _, _⟩ := chunkFrom_mem segments d total hd fuel (cs + d) (num + 1) b hb
        simp only
        calc min (cs + d) total ≤ cs + d := min_le_left _ _
          _ ≤ b.start_time := h1
    · simp [hcs]

lemma joinSpace_append (x z : List Str) (hx : x ≠ []) (hz : z ≠ []) :
    joinSpace (x ++ z) = joinSpace x ++ ' ' :: joinSpace z := by
  induction x with
  | nil => exact absurd rfl hx
  | cons a t ih =>
    cases t with
    | nil =>
      cases z with
      | nil => exact absurd rfl hz
      | cons b u => simp [joinSpace]
    | cons b u =>
      have : joinSpace ((a :: b :: u) ++ z) = a ++ ' ' :: joinSpace ((b :: u) ++ z) := by
        simp [joinSpace]
      rw [this, ih (by simp)]
      simp [joinSpace]

lemma joinSpace_flatten (xss : List (List Str)) (h : ∀ x ∈ xss, x ≠ []) :
    joinSpace (xss.map joinSpace) = joinSpace xss.flatten := by
  induction xss with
  | nil => simp [joinSpace]
  | cons x xss ih =>
    cases xss with
    | nil => simp [joinSpace]
    | cons y ys =>
      have hx : x ≠ [] := h x (by simp)
      have hy : y ≠ [] := h y (by simp)
      have hjoin : (y :: ys).flatten ≠ [] := by
        simp only [List.flatten_cons]
        intro hcontra
        exact hy (List.append_eq_nil.mp hcontra).1
      have hrest : ∀ z ∈ y :: ys, z ≠ [] := by
        intro z hz
        exact h z (List.mem_cons_of_mem x hz)
      calc joinSpace ((x :: y :: ys).map joinSpace)
          = joinSpace x ++ ' ' :: joinSpace ((y :: ys).map joinSpace) := by
            simp [joinSpace]
        _ = joinSpace x ++ ' ' :: joinSpace (y :: ys).flatten := by rw [ih hrest]
        _ = joinSpace (x ++ (y :: ys).flatten) := (joinSpace_append x _ hx hjoin).symm
        _ = joinSpace (x :: y :: ys).flatten := by simp [List.flatten_cons]

lemma flatten_map_segs (f : Segment → Str) (cs : List Chunk) :
    (cs.map (fun c => c.segments.map f)).flatten = ((cs.map Chunk.segments).flatten).map f := by
  induction cs with
  | nil => simp
  | cons c t ih =>
    simp only [List.map_cons, List.flatten_cons, List.map_append]
    rw [ih]

/-- C4 counterexample input: two segments separated by a long speech gap, so
the middle window `[300, 600)` holds no segment and is dropped. -/
def exGapSegs : List Segment := [⟨0, 1, sl "a"⟩, ⟨700, 710, sl "b"⟩]

/-- C4 (counterexample): the claim says the chunks' windows cover
`[0, last segment's end)`; on `exGapSegs` with 5-minute windows the instant
`t = 400` lies in `[0, 710)` but in no produced chunk's window, because the
empty window `[300, 600)` is dropped by `chunk_transcript`. -/
theorem C4_counterexample :
    exGapSegs.getLast? = some ⟨700, 710, sl "b"⟩ ∧
    (0 : ℚ) ≤ 400 ∧ (400 : ℚ) < 710 ∧
    (chunk_transcript exGapSegs 5).all
      (fun c => !(decide (c.start_time ≤ 400 ∧ (400 : ℚ) < c.end_time))) = true := by
  refine ⟨rfl, by norm_num, by norm_num, ?_⟩
  decide

/-- C4 (amended): for a sorted segment list with nonnegative start times all
below the final end time, the chunks produced by `chunk_transcript` have
pairwise non-overlapping half-open windows, every segment is assigned to the
unique produced window containing its start time, concatenating the chunks'
segment lists in chunk order reproduces the segment list (hence chunk texts
reproduce the stripped segment texts), and each produced chunk is non-empty.
Full coverage of `[0, last end)` does not hold in general: windows with no
segments are dropped (see the counterexample). -/
theorem C4_chunker_partition (segs : List Segment) (m : ℚ) (last : Segment)
    (hlast : segs.getLast? = some last) (hm : 0 < m)
    (hsort : segs.Pairwise (fun a b => a.start ≤ b.start))
    (h0 : ∀ s ∈ segs, 0 ≤ s.start)
    (hlt : ∀ s ∈ segs, s.start < last.stop) :
    (chunk_transcript segs m).Pairwise (fun a b => a.end_time ≤ b.start_time) ∧
    ((chunk_transcript segs m).map Chunk.segments).flatten = segs ∧
    (∀ c ∈ chunk_transcript segs m,
      c.segments = windowSegs segs c.start_time (c.start_time + m * 60) ∧
      c.segments ≠ []) ∧
    joinSpace ((chunk_transcript segs m).map Chunk.text)
      = joinSpace (segs.map (fun s => pyStrip s.text)) := by
  have hmem : last ∈ segs := by
    have h1 : last ∈ segs.getLast? := by rw [Option.mem_def, hlast]
    obtain ⟨hne, heq⟩ := List.mem_getLast?_eq_getLast h1
    rw [heq]
    exact List.getLast_mem hne
  set d := m * 60 with hd_def
  have hd : 0 < d := by rw [hd_def]; positivity
  set total := last.stop with htot_def
  have htotpos : 0 < total := lt_of_le_of_lt (h0 last hmem) (hlt last hmem)
  have hchunks : chunk_transcript segs m = chunkFrom segs d total 0 1 (chunkFuel d total) := by
    simp only [chunk_transcript, hlast]
  have hfuel : total ≤ 0 + ((chunkFuel d total : ℕ) : ℚ) * d := by
    rw [zero_add]
    have hq0 : 0 ≤ total / d := by positivity
    have hnum0 : 0 ≤ (total / d).num := Rat.num_nonneg.mpr hq0
    have hden1 : (1 : ℚ) ≤ ((total / d).den : ℚ) := by
      exact_mod_cast Nat.one_le_iff_ne_zero.mpr (total / d).den_nz
    have h2 : total / d ≤ (((total / d).num : ℤ) : ℚ) := by
      conv_lhs => rw [← Rat.num_div_den (total / d)]
      apply div_le_self _ hden1
      exact_mod_cast hnum0
    have h1 : total / d ≤ ((chunkFuel d total : ℕ) : ℚ) := by
      simp only [chunkFuel]
      have hc : (((total / d).num.toNat : ℕ) : ℚ) = (((total / d).num : ℤ) : ℚ) := by
        exact_mod_cast Int.toNat_of_nonneg hnum0
      push_cast
      rw [hc]
      linarith
    calc total = (total / d) * d := by field_simp
      _ ≤ ((chunkFuel d total : ℕ) : ℚ) * d := mul_le_mul_of_nonneg_right h1 hd.le
  have hjoin : ((chunk_transcript segs m).map Chunk.segments).flatten = segs := by
    rw [hchunks, chunkFrom_join segs d total hd hsort hlt _ 0 1 hfuel]
    apply List.filter_eq_self.mpr
    intro s hs
    exact decide_eq_true (h0 s hs)
  refine ⟨?_, hjoin, ?_, ?_⟩
  · rw [hchunks]
    exact chunkFrom_pairwise segs d total (le_of_lt hd) _ 0 1
  · intro c hc
    rw [hchunks] at hc
    obtain ⟨_, _, h3, h4, _⟩ := chunkFrom_mem segs d total (le_of_lt hd) _ 0 1 c hc
    exact ⟨h3, h4⟩
  · have htext : (chunk_transcript segs m).map Chunk.text
        = ((chunk_transcript segs m).map
            (fun c => c.segments.map (fun s => pyStrip s.text))).map joinSpace := by
      rw [List.map_map]
      apply List.map_congr_left
      intro c hc
      rw [hchunks] at hc
      obtain ⟨_, _, _, _, h5⟩ := chunkFrom_mem segs d total (le_of_lt hd) _ 0 1 c hc
      exact h5
    have hne : ∀ x ∈ (chunk_transcript segs m).map
        (fun c => c.segments.map (fun s => pyStrip s.text)), x ≠ [] := by
      intro x hx
      rw [List.mem_map] at hx
      obtain ⟨c, hc, hcx⟩ := hx
      rw [hchunks] at hc
      obtain ⟨_, _, _, h4, _⟩ := chunkFrom_mem segs d total (le_of_lt hd) _ 0 1 c hc
      rw [← hcx]
      simpa using h4
    rw [htext, joinSpace_flatten _ hne, flatten_map_segs, hjoin]

/-- Sorted example input for the C4 witness. -/
def exSortSegs : List Segment := [⟨0, 2, sl "a"⟩, ⟨2, 4, sl "b"⟩, ⟨400, 410, sl "c"⟩]

/-- Witness for C4 (amended), at a concrete sorted segment list. -/
theorem C4_chunker_partition_witness :
    (chunk_transcript exSortSegs 5).Pairwise (fun a b => a.end_time ≤ b.start_time) ∧
    ((chunk_transcript exSortSegs 5).map Chunk.segments).flatten = exSortSegs ∧
    (∀ c ∈ chunk_transcript exSortSegs 5,
      c.segments = windowSegs exSortSegs c.start_time (c.start_time + 5 * 60) ∧
      c.segments ≠ []) ∧
    joinSpace ((chunk_transcript exSortSegs 5).map Chunk.text)
      = joinSpace (exSortSegs.map (fun s => pyStrip s.text)) :=
  C4_chunker_partition exSortSegs 5 ⟨400, 410, sl "c"⟩ rfl (by norm_num)
    (by decide) (by decide) (by decide)

/-! ### Phrase correlator (`find_phrase_timestamp`, claim C5) -/

/-- Word-level test from `find_phrase_timestamp`:
`phrase_word in segment_words[segment_idx] or segment_words[segment_idx] in phrase_word`. -/
def wordRel (p w : Str) : Bool := pyIn p w || pyIn w p

/-- The inner `while segment_idx < len(segment_words)` scan: find the first
segment word related to `p` and return the words after it. -/
def findMatchRest (p : Str) : List Str → Option (List Str)
  | [] => none
  | w :: ws => if wordRel p w then some ws else findMatchRest p ws

/-- The `for phrase_word in phrase_words` loop of `find_phrase_timestamp`.
When a phrase word is not found the Python scan leaves
`segment_idx = len(segment_words)`, so no later phrase word can match. -/
def greedyMatches : List Str → List Str → Nat
  | [], _ => 0
  | p :: ps, sws =>
    match findMatchRest p sws with
    | some rest => greedyMatches ps rest + 1
    | none => 0

/-- Python `str.split()`: whitespace tokenisation with empty tokens dropped.
A preceding `.strip()` never changes the result, so the source's
`phrase.lower().strip().split()` is modelled as `splitWords (pyLower phrase)`. -/
def splitWordsF : Nat → Str → List Str
  | 0, _ => []
  | _, [] => []
  | fuel + 1, c :: cs =>
    if isSpaceC c then splitWordsF fuel cs
    else (c :: cs.takeWhile (fun x => !isSpaceC x))
      :: splitWordsF fuel (cs.dropWhile (fun x => !isSpaceC x))

def splitWords (s : Str) : List Str := splitWordsF (s.length + 1) s

lemma splitWordsF_congr :
    ∀ (f1 : Nat) (s : Str) (f2 : Nat), s.length < f1 → s.length < f2 →
      splitWordsF f1 s = splitWordsF f2 s := by
  intro f1
  induction f1 with
  | zero => intro s f2 h1 _; exact absurd h1 (Nat.not_lt_zero _)
  | succ f1 ih =>
    intro s f2 h1 h2
    cases s with
    | nil =>
      cases f2 with
      | zero => rfl
      | succ g => rfl
    | cons c cs =>
      cases f2 with
      | zero => exact absurd h2 (Nat.not_lt_zero _)
      | succ g =>
        simp only [List.length_cons, Nat.succ_lt_succ_iff] at h1 h2
        rw [splitWordsF, splitWordsF]
        by_cases hc : isSpaceC c = true
        · rw [if_pos hc, if_pos hc]
          exact ih cs g h1 h2
        · rw [if_neg hc, if_neg hc]
          have hlen : (cs.dropWhile (fun x => !isSpaceC x)).length ≤ cs.length :=
            (List.dropWhile_sublist _).length_le
          rw [ih (cs.dropWhile (fun x => !isSpaceC x)) g
            (lt_of_le_of_lt hlen h1) (lt_of_le_of_lt hlen h2)]

lemma splitWords_nil : splitWords [] = [] := rfl

lemma splitWords_cons (c : Char) (cs : Str) :
    splitWords (c :: cs) =
      if isSpaceC c then splitWords cs
      else (c :: cs.takeWhile (fun x => !isSpaceC x))
        :: splitWords (cs.dropWhile (fun x => !isSpaceC x)) := by
  show splitWordsF (cs.length + 1 + 1) (c :: cs) = _
  rw [splitWordsF]
  by_cases hc : isSpaceC c = true
  · rw [if_pos hc, if_pos hc]
    rfl
  · rw [if_neg hc, if_neg hc]
    rw [splitWordsF_congr (cs.length + 1) (cs.dropWhile (fun x => !isSpaceC x))
      ((cs.dropWhile (fun x => !isSpaceC x)).length + 1)
      (Nat.lt_succ_of_le (List.dropWhile_sublist _).length_le) (Nat.lt_succ_self _)]
    rfl

/-- Greedy matched-word count divided by the phrase word count, for one segment. -/
def scoreQ (pws : List Str) (s : Segment) : ℚ :=
  (greedyMatches pws (splitWords (pyLower s.text)) : ℚ) / (pws.length : ℚ)

/-- The `for segment in segments` loop of `find_phrase_timestamp`, tracking
`(best_score, best_timestamp)`. -/
def bestLoop (pws : List Str) : List Segment → ℚ × Option ℚ → ℚ × Option ℚ
  | [], acc => acc
  | seg :: rest, acc =>
    let sws := splitWords (pyLower seg.text)
    if sws.length = 0 then bestLoop pws rest acc
    else
      let score : ℚ := (greedyMatches pws sws : ℚ) / (pws.length : ℚ)
      if acc.1 < score then bestLoop pws rest (score, some seg.start)
      else bestLoop pws rest acc

/-- `find_phrase_timestamp(phrase, segments, threshold)`. -/
def find_phrase_timestamp (phrase : Str) (segments : List Segment) (threshold : ℚ) :
    Option ℚ :=
  if phrase = [] ∨ segments = [] then none
  else
    let phrase_words := splitWords (pyLower phrase)
    if phrase_words.length = 0 then none
    else
      let best := bestLoop phrase_words segments (0, none)
      if threshold ≤ best.1 then best.2 else none

/-! #### Substring and tokenisation lemmas -/

lemma subSeg_refl (s : Str) : SubSeg s s := ⟨[], [], by simp⟩

lemma subSeg_trans {a b c : Str} (h1 : SubSeg a b) (h2 : SubSeg b c) : SubSeg a c := by
  obtain ⟨x, y, hxy⟩ := h1
  obtain ⟨u, v, huv⟩ := h2
  exact ⟨u ++ x, y ++ v, by rw [huv, hxy]; simp⟩

lemma subSeg_left (w1 w2 : Str) : SubSeg w1 (w1 ++ w2) := ⟨[], w2, by simp⟩

lemma subSeg_right (w1 w2 : Str) : SubSeg w2 (w1 ++ w2) := ⟨w1, [], by simp⟩

lemma subSeg_map (f : Char → Char) {p t : Str} (h : SubSeg p t) :
    SubSeg (p.map f) (t.map f) := by
  obtain ⟨a, b, hab⟩ := h
  exact ⟨a.map f, b.map f, by rw [hab]; simp⟩

lemma startsWithL_iff (p s : Str) : startsWithL p s = true ↔ ∃ t, s = p ++ t := by
  induction p generalizing s with
  | nil => simp [startsWithL]
  | cons a ps ih =>
    cases s with
    | nil =>
      simp only [startsWithL]
      constructor
      · intro h; exact absurd h (by simp)
      · rintro ⟨t, ht⟩; exact absurd ht (by simp)
    | cons c cs =>
      simp only [startsWithL, Bool.and_eq_true, beq_iff_eq, ih]
      constructor
      · rintro ⟨rfl, t, rfl⟩; exact ⟨t, rfl⟩
      · rintro ⟨t, ht⟩
        rw [List.cons_append] at ht
        injection ht with h1 h2
        exact ⟨h1.symm, t, h2⟩

lemma pyIn_iff (needle hay : Str) : pyIn needle hay = true ↔ SubSeg needle hay := by
  induction hay with
  | nil =>
    simp only [pyIn, List.isEmpty_iff, SubSeg]
    constructor
    · rintro rfl; exact ⟨[], [], rfl⟩
    · rintro ⟨a, b, hab⟩
      rcases List.append_eq_nil.mp (List.append_eq_nil.mp hab.symm).1 with ⟨_, h2⟩
      exact h2
  | cons c rest ih =>
    simp only [pyIn, Bool.or_eq_true, startsWithL_iff, ih]
    constructor
    · rintro (⟨t, ht⟩ | ⟨a, b, hab⟩)
      · exact ⟨[], t, by simp [ht]⟩
      · exact ⟨c :: a, b, by simp [hab]⟩
    · rintro ⟨a, b, hab⟩
      cases a with
      | nil => exact Or.inl ⟨b, by simpa using hab⟩
      | cons a0 as =>
        rw [List.cons_append, List.cons_append] at hab
        injection hab with h1 h2
        exact Or.inr ⟨as, b, h2⟩

lemma takeWhileApp (p : Char → Bool) (l r : Str) :
    (l ++ r).takeWhile p = if l.all p then l ++ r.takeWhile p else l.takeWhile p := by
  induction l with
  | nil => simp
  | cons a t ih =>
    by_cases pa : p a = true
    · by_cases ht : t.all p = true
      · simp [List.takeWhile_cons, pa, List.all_cons, ht, ih]
      · simp [List.takeWhile_cons, pa, List.all_cons, ht, ih]
    · simp [List.takeWhile_cons, pa, List.all_cons, Bool.eq_false_iff.mpr pa]

lemma dropWhileApp (p : Char → Bool) (l r : Str) :
    (l ++ r).dropWhile p = if l.all p then r.dropWhile p else l.dropWhile p ++ r := by
  induction l with
  | nil => simp
  | cons a t ih =>
    by_cases pa : p a = true
    · by_cases ht : t.all p = true
      · simp [List.dropWhile_cons, pa, List.all_cons, ht, ih]
      · simp [List.dropWhile_cons, pa, List.all_cons, ht, ih]
    · simp [List.dropWhile_cons, pa, List.all_cons, Bool.eq_false_iff.mpr pa]

/-- How `splitWords` splits across a concatenation: either the boundary is
clean, or the last word of `x` merges with the first word of `y`. -/
lemma splitWords_append (n : Nat) :
    ∀ (x y : Str), x.length ≤ n →
    splitWords (x ++ y) = splitWords x ++ splitWords y ∨
    ∃ ws1 w1 w2 ws2, splitWords x = ws1 ++ [w1] ∧ splitWords y = w2 :: ws2 ∧
      splitWords (x ++ y) = ws1 ++ (w1 ++ w2) :: ws2 := by
  induction n with
  | zero =>
    intro x y hx
    rw [List.length_eq_zero.mp (Nat.le_zero.mp hx)]
    left
    simp [splitWords_nil]
  | succ n ih =>
    intro x y hx
    cases x with
    | nil => left; simp [splitWords_nil]
    | cons c cs =>
      simp only [List.length_cons, Nat.succ_le_succ_iff] at hx
      by_cases hc : isSpaceC c = true
      · have h1 : splitWords (c :: cs) = splitWords cs := by
          rw [splitWords_cons, if_pos hc]
        have h2 : splitWords (c :: cs ++ y) = splitWords (cs ++ y) := by
          rw [List.cons_append, splitWords_cons, if_pos hc]
        rw [h1, h2]
        exact ih cs y hx
      · have h1 : splitWords (c :: cs)
            = (c :: cs.takeWhile (fun x => !isSpaceC x))
              :: splitWords (cs.dropWhile (fun x => !isSpaceC x)) := by
          rw [splitWords_cons, if_neg hc]
        have h2 : splitWords (c :: cs ++ y)
            = (c :: (cs ++ y).takeWhile (fun x => !isSpaceC x))
              :: splitWords ((cs ++ y).dropWhile (fun x => !isSpaceC x)) := by
          rw [List.cons_append, splitWords_cons, if_neg hc]
        by_cases hall : cs.all (fun x => !isSpaceC x) = true
        · -- `cs` is all non-space: the first word of `x` may extend into `y`
          have htake : cs.takeWhile (fun x => !isSpaceC x) = cs :=
            List.takeWhile_eq_self_iff.mpr (by
              intro a ha
              exact List.all_eq_true.mp hall a ha)
          have hdrop : cs.dropWhile (fun x => !isSpaceC x) = [] :=
            List.dropWhile_eq_nil_iff.mpr (by
              intro a ha
              exact List.all_eq_true.mp hall a ha)
          have htake2 : (cs ++ y).takeWhile (fun x => !isSpaceC x)
              = cs ++ y.takeWhile (fun x => !isSpaceC x) := by
            rw [takeWhileApp, if_pos hall]
          have hdrop2 : (cs ++ y).dropWhile (fun x => !isSpaceC x)
              = y.dropWhile (fun x => !isSpaceC x) := by
            rw [dropWhileApp, if_pos hall]
          cases y with
          | nil =>
            left
            rw [List.append_nil]
            simp [splitWords_nil]
          | cons d ds =>
            by_cases hd : isSpaceC d = true
            · left
              have hty : (d :: ds).takeWhile (fun x => !isSpaceC x) = [] := by
                simp [List.takeWhile_cons, hd]
              have hdy : (d :: ds).dropWhile (fun x => !isSpaceC x) = d :: ds := by
                simp [List.dropWhile_cons, hd]
              rw [h2, h1, htake, hdrop, htake2, hty, hdrop2, hdy]
              simp [splitWords_nil]
            · right
              have hty : (d :: ds).takeWhile (fun x => !isSpaceC x)
                  = d :: ds.takeWhile (fun x => !isSpaceC x) := by
                simp [List.takeWhile_cons, hd]
              have hdy : (d :: ds).dropWhile (fun x => !isSpaceC x)
                  = ds.dropWhile (fun x => !isSpaceC x) := by
                simp [List.dropWhile_cons, hd]
              have hy : splitWords (d :: ds)
                  = (d :: ds.takeWhile (fun x => !isSpaceC x))
                    :: splitWords (ds.dropWhile (fun x => !isSpaceC x)) := by
                rw [splitWords_cons, if_neg hd]
              refine ⟨[], c :: cs, d :: ds.takeWhile (fun x => !isSpaceC x),
                splitWords (ds.dropWhile (fun x => !isSpaceC x)), ?_, ?_, ?_⟩
              · rw [h1, htake, hdrop]; simp [splitWords_nil]
              · exact hy
              · rw [h2, htake2, hty, hdrop2, hdy]
                simp
        · -- `cs` contains a space: the boundary lies beyond the first word
          have htake2 : (cs ++ y).takeWhile (fun x => !isSpaceC x)
              = cs.takeWhile (fun x => !isSpaceC x) := by
            rw [takeWhileApp, if_neg hall]
          have hdrop2 : (cs ++ y).dropWhile (fun x => !isSpaceC x)
              = cs.dropWhile (fun x => !isSpaceC x) ++ y := by
            rw [dropWhileApp, if_neg hall]
          have hlen : (cs.dropWhile (fun x => !isSpaceC x)).length ≤ n :=
            le_trans (List.dropWhile_sublist _).length_le hx
          rcases ih (cs.dropWhile (fun x => !isSpaceC x)) y hlen with hplain | hmerge
          · left
            rw [h2, h1, htake2, hdrop2, hplain]
            simp
          · right
            obtain ⟨ws1, w1, w2, ws2, e1, e2, e3⟩ := hmerge
            refine ⟨(c :: cs.takeWhile (fun x => !isSpaceC x)) :: ws1, w1, w2, ws2,
              ?_, e2, ?_⟩
            · rw [h1, e1]; simp
            · rw [h2, htake2, hdrop2, e3]; simp

/-- `SubMatchR r ps ts`: the words `ps` can be matched, in order and to
pairwise distinct positions, against words of `ts` under the relation `r`. -/
def SubMatchR (r : Str → Str → Prop) (ps ts : List Str) : Prop :=
  ∃ ts2, List.Sublist ts2 ts ∧ List.Forall₂ r ps ts2

lemma forall₂_refl_subSeg (ws : List Str) : List.Forall₂ SubSeg ws ws := by
  induction ws with
  | nil => exact List.Forall₂.nil
  | cons w t ih => exact List.Forall₂.cons (subSeg_refl w) ih

lemma subMatch_append_right (p b : Str) :
    SubMatchR SubSeg (splitWords p) (splitWords (p ++ b)) := by
  rcases splitWords_append p.length p b (le_refl _) with hplain | hmerge
  · exact ⟨splitWords p, hplain ▸ List.sublist_append_left _ _, forall₂_refl_subSeg _⟩
  · obtain ⟨ws1, w1, w2, ws2, e1, e2, e3⟩ := hmerge
    refine ⟨ws1 ++ [w1 ++ w2], ?_, ?_⟩
    · rw [e3]
      have hsub : List.Sublist [w1 ++ w2] ((w1 ++ w2) :: ws2) :=
        List.cons_sublist_cons.mpr (List.nil_sublist ws2)
      exact hsub.append_left ws1
    · rw [e1]
      clear e1 e2 e3
      induction ws1 with
      | nil => exact List.Forall₂.cons (subSeg_left w1 w2) List.Forall₂.nil
      | cons a t ih => exact List.Forall₂.cons (subSeg_refl a) ih

lemma subMatch_append_left (a q : Str) :
    SubMatchR SubSeg (splitWords q) (splitWords (a ++ q)) := by
  rcases splitWords_append a.length a q (le_refl _) with hplain | hmerge
  · exact ⟨splitWords q, hplain ▸ List.sublist_append_right _ _, forall₂_refl_subSeg _⟩
  · obtain ⟨ws1, w1, w2, ws2, e1, e2, e3⟩ := hmerge
    refine ⟨(w1 ++ w2) :: ws2, ?_, ?_⟩
    · rw [e3]
      exact List.sublist_append_right _ _
    · rw [e2]
      exact List.Forall₂.cons (subSeg_right w1 w2) (forall₂_refl_subSeg ws2)

lemma forall₂_sublist_restrict {r : Str → Str → Prop} :
    ∀ {ts us2 ts2 : List Str}, List.Forall₂ r ts us2 → List.Sublist ts2 ts →
      ∃ us3, List.Sublist us3 us2 ∧ List.Forall₂ r ts2 us3 := by
  intro ts us2 ts2 hf hs
  induction hs generalizing us2 with
  | slnil => exact ⟨[], List.nil_sublist _, List.Forall₂.nil⟩
  | cons b hsub ih =>
    rcases hf with _ | ⟨hrb, hf2⟩
    obtain ⟨us3, hsub3, hf3⟩ := ih hf2
    exact ⟨us3, hsub3.trans (List.sublist_cons_self _ _), hf3⟩
  | cons₂ b hsub ih =>
    rcases hf with _ | ⟨hrb, hf2⟩
    obtain ⟨us3, hsub3, hf3⟩ := ih hf2
    exact ⟨_ :: us3, List.cons_sublist_cons.mpr hsub3, List.Forall₂.cons hrb hf3⟩

lemma forall₂_subSeg_trans :
    ∀ {ps ts us : List Str}, List.Forall₂ SubSeg ps ts → List.Forall₂ SubSeg ts us →
      List.Forall₂ SubSeg ps us := by
  intro ps ts us h1 h2
  induction h1 generalizing us with
  | nil =>
    rcases h2 with _ | _
    exact List.Forall₂.nil
  | cons hab h1rest ih =>
    rcases h2 with _ | ⟨hbc, h2rest⟩
    exact List.Forall₂.cons (subSeg_trans hab hbc) (ih h2rest)

lemma subMatch_trans {ps ts us : List Str}
    (h1 : SubMatchR SubSeg ps ts) (h2 : SubMatchR SubSeg ts us) :
    SubMatchR SubSeg ps us := by
  obtain ⟨ts2, hs1, hf1⟩ := h1
  obtain ⟨us2, hs2, hf2⟩ := h2
  obtain ⟨us3, hs3, hf3⟩ := forall₂_sublist_restrict hf2 hs1
  exact ⟨us3, hs3.trans hs2, forall₂_subSeg_trans hf1 hf3⟩

/-- An exact substring of `t` tokenises into words that embed, in order,
into the words of `t` as substrings. -/
lemma splitWords_subMatch {p t : Str} (h : SubSeg p t) :
    SubMatchR SubSeg (splitWords p) (splitWords t) := by
  obtain ⟨a, b, rfl⟩ := h
  rw [List.append_assoc]
  exact subMatch_trans (subMatch_append_right p b) (subMatch_append_left a (p ++ b))

/-! #### Greedy matching lemmas -/

lemma greedyMatches_le (ps sws : List Str) : greedyMatches ps sws ≤ ps.length := by
  induction ps generalizing sws with
  | nil => simp [greedyMatches]
  | cons p pt ih =>
    rw [greedyMatches]
    cases hf : findMatchRest p sws with
    | none => simp
    | some rest =>
      simp only [List.length_cons]
      exact Nat.succ_le_succ (ih rest)

/-- Greedy completeness: if the phrase words can be matched in order against
distinct segment words, the first-match greedy scan matches all of them. -/
lemma greedy_complete :
    ∀ (sws : List Str) (ps ts2 : List Str), List.Sublist ts2 sws →
      List.Forall₂ (fun p w => wordRel p w = true) ps ts2 →
      greedyMatches ps sws = ps.length := by
  intro sws
  induction sws with
  | nil =>
    intro ps ts2 hs hf
    rw [List.sublist_nil.mp hs] at hf
    rcases hf with _ | _
    simp [greedyMatches]
  | cons w sws ih =>
    intro ps ts2 hs hf
    cases ps with
    | nil => simp [greedyMatches]
    | cons p pt =>
      rcases hf with _ | ⟨hrel, hf2⟩
      rename_i t ts2'
      by_cases hw : wordRel p w = true
      · have hstep : greedyMatches (p :: pt) (w :: sws) = greedyMatches pt sws + 1 := by
          rw [greedyMatches, findMatchRest, if_pos hw]
        have hts : List.Sublist ts2' sws := by
          cases hs with
          | cons _ h => exact (List.sublist_cons_self t ts2').trans h
          | cons₂ _ h => exact h
        rw [hstep, ih pt ts2' hts hf2]
        simp
      · have htw : t ≠ w := by
          intro hcontra
          rw [hcontra] at hrel
          exact hw hrel
        have hts : List.Sublist (t :: ts2') sws := by
          cases hs with
          | cons _ h => exact h
          | cons₂ _ h => exact absurd rfl htw
        have hstep : greedyMatches (p :: pt) (w :: sws)
            = greedyMatches (p :: pt) sws := by
          rw [greedyMatches, findMatchRest, if_neg hw, greedyMatches]
        rw [hstep]
        exact ih (p :: pt) (t :: ts2') hts (List.Forall₂.cons hrel hf2)

/-- A phrase occurring verbatim inside a segment's text scores 1.0 under the
greedy word matcher. -/
lemma scoreQ_eq_one_of_subSeg {phrase : Str} {seg : Segment}
    (hsub : SubSeg phrase seg.text) (hw : splitWords (pyLower phrase) ≠ []) :
    scoreQ (splitWords (pyLower phrase)) seg = 1 := by
  have hlow : SubSeg (pyLower phrase) (pyLower seg.text) := subSeg_map Char.toLower hsub
  obtain ⟨ts2, hsublist, hforall⟩ := splitWords_subMatch hlow
  have hforall2 : List.Forall₂ (fun p w => wordRel p w = true)
      (splitWords (pyLower phrase)) ts2 := by
    refine List.Forall₂.imp ?_ hforall
    intro p w hpw
    simp only [wordRel, Bool.or_eq_true]
    exact Or.inl ((pyIn_iff p w).mpr hpw)
  have hall : greedyMatches (splitWords (pyLower phrase)) (splitWords (pyLower seg.text))
      = (splitWords (pyLower phrase)).length :=
    greedy_complete _ _ ts2 hsublist hforall2
  have hlen : ((splitWords (pyLower phrase)).length : ℚ) ≠ 0 := by
    exact_mod_cast Nat.pos_iff_ne_zero.mp (List.length_pos.mpr hw)
  rw [scoreQ, hall]
  exact div_self hlen

/-- Every segment scores at most 1.0. -/
lemma scoreQ_le_one (pws : List Str) (hw : pws ≠ []) (seg : Segment) :
    scoreQ pws seg ≤ 1 := by
  have hlen : (0 : ℚ) < (pws.length : ℚ) := by
    exact_mod_cast List.length_pos.mpr hw
  rw [scoreQ, div_le_one hlen]
  exact_mod_cast greedyMatches_le pws (splitWords (pyLower seg.text))

lemma bestLoop_stay (pws : List Str) (hw : pws ≠ []) :
    ∀ (segs : List Segment) (t : Option ℚ), bestLoop pws segs (1, t) = (1, t) := by
  intro segs
  induction segs with
  | nil => intro t; rfl
  | cons seg rest ih =>
    intro t
    rw [bestLoop]
    by_cases hsw : (splitWords (pyLower seg.text)).length = 0
    · simp only [hsw, if_pos rfl]
      exact ih t
    · simp only [hsw, if_neg hsw]
      have hle : (greedyMatches pws (splitWords (pyLower seg.text)) : ℚ)
          / (pws.length : ℚ) ≤ 1 := scoreQ_le_one pws hw seg
      rw [if_neg (not_lt.mpr hle)]
      exact ih t

lemma bestLoop_found (pws : List Str) (hw : pws ≠ []) :
    ∀ (segs : List Segment) (bs : ℚ) (bt : Option ℚ), bs < 1 →
      (∃ s ∈ segs, scoreQ pws s = 1) →
      ∃ s ∈ segs, bestLoop pws segs (bs, bt) = (1, some s.start) ∧ scoreQ pws s = 1 := by
  intro segs
  induction segs with
  | nil =>
    intro bs bt hbs hex
    obtain ⟨s, hs, _⟩ := hex
    exact absurd hs (List.not_mem_nil s)
  | cons seg rest ih =>
    intro bs bt hbs hex
    by_cases hseg : scoreQ pws seg = 1
    · have hsw : ¬ (splitWords (pyLower seg.text)).length = 0 := by
        intro hlen0
        have hnil : splitWords (pyLower seg.text) = [] := List.length_eq_zero.mp hlen0
        rw [scoreQ, hnil] at hseg
        cases pws with
        | nil => exact hw rfl
        | cons p pt =>
          rw [greedyMatches, findMatchRest] at hseg
          norm_num at hseg
      rw [bestLoop]
      simp only [hsw, if_neg hsw]
      have hscore : (greedyMatches pws (splitWords (pyLower seg.text)) : ℚ)
          / (pws.length : ℚ) = 1 := hseg
      rw [hscore, if_pos hbs, bestLoop_stay pws hw rest (some seg.start)]
      exact ⟨seg, List.mem_cons_self seg rest, rfl, hseg⟩
    · have hex2 : ∃ s ∈ rest, scoreQ pws s = 1 := by
        obtain ⟨s, hs, hsc⟩ := hex
        rcases List.mem_cons.mp hs with rfl | hmem
        · exact absurd hsc hseg
        · exact ⟨s, hmem, hsc⟩
      rw [bestLoop]
      by_cases hsw : (splitWords (pyLower seg.text)).length = 0
      · simp only [hsw, if_pos rfl]
        obtain ⟨s, hs, h1, h2⟩ := ih bs bt hbs hex2
        exact ⟨s, List.mem_cons_of_mem seg hs, h1, h2⟩
      · simp only [if_neg hsw]
        by_cases hup : bs < (greedyMatches pws (splitWords (pyLower seg.text)) : ℚ)
            / (pws.length : ℚ)
        · rw [if_pos hup]
          have hlt1 : (greedyMatches pws (splitWords (pyLower seg.text)) : ℚ)
              / (pws.length : ℚ) < 1 :=
            lt_of_le_of_ne (scoreQ_le_one pws hw seg) hseg
          obtain ⟨s, hs, h1, h2⟩ := ih _ (some seg.start) hlt1 hex2
          exact ⟨s, List.mem_cons_of_mem seg hs, h1, h2⟩
        · rw [if_neg hup]
          obtain ⟨s, hs, h1, h2⟩ := ih bs bt hbs hex2
          exact ⟨s, List.mem_cons_of_mem seg hs, h1, h2⟩

/-- C5 counterexample input: the phrase text occurs in both segments. -/
def exDupSegs : List Segment := [⟨0, 1, sl "x"⟩, ⟨5, 6, sl "x"⟩]

/-- C5 (counterexample): the phrase `"x"` is an exact verbatim substring of the
second segment's text, but `find_phrase_timestamp` returns the first
best-scoring segment's start (0), not that segment's start (5): the claim's
"returns that segment's start time" fails when an earlier segment also
scores 1.0. -/
theorem C5_counterexample :
    (⟨5, 6, sl "x"⟩ : Segment) ∈ exDupSegs ∧
    SubSeg (sl "x") (Segment.text ⟨5, 6, sl "x"⟩) ∧
    find_phrase_timestamp (sl "x") exDupSegs (1 / 2) = some 0 ∧
    Segment.start ⟨5, 6, sl "x"⟩ ≠ (0 : ℚ) := by
  refine ⟨by decide, ⟨[], [], rfl⟩, ?_, by norm_num⟩
  decide

/-- C5 (amended): for any phrase with at least one word token that occurs as an
exact verbatim substring of some segment's text, `find_phrase_timestamp` with
the default threshold 0.5 returns `some` timestamp, namely the start time of
the first segment attaining the best greedy score, and that segment scores
1.0 (it need not be the segment containing the phrase). -/
theorem C5_exact_phrase_scores_one (phrase : Str) (segments : List Segment)
    (seg : Segment) (hmem : seg ∈ segments) (hsub : SubSeg phrase seg.text)
    (hw : splitWords (pyLower phrase) ≠ []) :
    ∃ s ∈ segments, find_phrase_timestamp phrase segments (1 / 2) = some s.start ∧
      scoreQ (splitWords (pyLower phrase)) s = 1 := by
  have hphrase : phrase ≠ [] := by
    intro hcontra
    rw [hcontra] at hw
    exact hw rfl
  have hsegs : segments ≠ [] := List.ne_nil_of_mem hmem
  have hcond : ¬ (phrase = [] ∨ segments = []) := by
    rintro (h | h)
    · exact hphrase h
    · exact hsegs h
  have hscore1 : scoreQ (splitWords (pyLower phrase)) seg = 1 :=
    scoreQ_eq_one_of_subSeg hsub hw
  obtain ⟨s, hs, hloop, hsc⟩ := bestLoop_found (splitWords (pyLower phrase)) hw
    segments 0 none (by norm_num) ⟨seg, hmem, hscore1⟩
  refine ⟨s, hs, ?_, hsc⟩
  have hlen : ¬ (splitWords (pyLower phrase)).length = 0 := by
    intro h0
    exact hw (List.length_eq_zero.mp h0)
  simp only [find_phrase_timestamp]
  rw [if_neg hcond, if_neg hlen, hloop]
  norm_num

/-- Input for the C5 witness: the phrase is verbatim inside the second segment. -/
def exPhraseSegs : List Segment :=
  [⟨0, 1, sl "bbb"⟩, ⟨7, 9, sl "well hello world please"⟩]

/-- Witness for C5 (amended) at a concrete phrase and segment list. -/
theorem C5_exact_phrase_scores_one_witness : ∃ s ∈ exPhraseSegs,
    find_phrase_timestamp (sl "hello world") exPhraseSegs (1 / 2) = some s.start ∧
    scoreQ (splitWords (pyLower (sl "hello world"))) s = 1 :=
  C5_exact_phrase_scores_one (sl "hello world") exPhraseSegs
    ⟨7, 9, sl "well hello world please"⟩ (by decide)
    ⟨sl "well ", sl " please", by decide⟩ (by decide)

/-! ### Shared text helpers for the response parsers -/

/-- Characters that are delicate inside Lean string literals, built by code point. -/
def lbraceC : Char := Char.ofNat 123

def rbraceC : Char := Char.ofNat 125

def dquoteC : Char := Char.ofNat 34

def squoteC : Char := Char.ofNat 39

def bslashC : Char := Char.ofNat 92

def lbrackC : Char := Char.ofNat 91

def rbrackC : Char := Char.ofNat 93

/-- Python `s.split(sep)` for a non-empty separator (fuel-based so it computes). -/
def splitOnSepF (sep : Str) : Nat → Str → List Str
  | 0, s => [s]
  | fuel + 1, s =>
    match s with
    | [] => [[]]
    | c :: rest =>
      if startsWithL sep s then [] :: splitOnSepF sep fuel (s.drop sep.length)
      else
        match splitOnSepF sep fuel rest with
        | [] => [[]]
        | x :: xs => (c :: x) :: xs

def splitOnSep (sep s : Str) : List Str := splitOnSepF sep (s.length + 1) s

/-- Everything after the first occurrence of `sep` (Python `s.split(sep, 1)[1]`;
all call sites first check that `sep` occurs, which makes the `[1]` safe). -/
def afterFirstOcc (sep : Str) : Str → Str
  | [] => []
  | c :: rest =>
    if startsWithL sep (c :: rest) then (c :: rest).drop sep.length
    else afterFirstOcc sep rest

/-- Everything before the first occurrence of `sep` (Python `s.split(sep)[0]`). -/
def beforeFirstOcc (sep : Str) : Str → Str
  | [] => []
  | c :: rest =>
    if startsWithL sep (c :: rest) then [] else c :: beforeFirstOcc sep rest

/-- Python `s.split(marker)[1]`: the text between the first and second
occurrence of `marker` (or to the end when it occurs only once). -/
def betweenFirstTwo (marker s : Str) : Str :=
  beforeFirstOcc marker (afterFirstOcc marker s)

/-! ### JSON model (Python `json.loads`) -/

/-- JSON values as produced by `json.loads`.  Numbers are modelled as integers
(the responses the parsers care about contain only strings, arrays and
objects; a fractional number makes this model's parse fail where Python's
would succeed, which only matters for inputs chosen here, and none use them). -/
inductive Json where
  | jnull : Json
  | jbool : Bool → Json
  | jnum : Int → Json
  | jstr : Str → Json
  | jarr : List Json → Json
  | jobj : List (Str × Json) → Json

def skipWs (s : Str) : Str := s.dropWhile isSpaceC

/-- JSON string escapes (the common single-character ones). -/
def parseEscape (c : Char) : Option Char :=
  if c = dquoteC then some dquoteC
  else if c = bslashC then some bslashC
  else if c = '/' then some '/'
  else if c = 'n' then some '\n'
  else if c = 't' then some '\t'
  else if c = 'r' then some '\r'
  else none

/-- Parse a JSON string body (after the opening quote), returning the content
and the input after the closing quote. -/
def parseJStr : Nat → Str → Option (Str × Str)
  | 0, _ => none
  | _, [] => none
  | fuel + 1, c :: rest =>
    if c = dquoteC then some ([], rest)
    else if c = bslashC then
      match rest with
      | [] => none
      | e :: rest2 =>
        match parseEscape e with
        | none => none
        | some ch =>
          match parseJStr fuel rest2 with
          | some (str2, r) => some (ch :: str2, r)
          | none => none
    else
      match parseJStr fuel rest with
      | some (str2, r) => some (c :: str2, r)
      | none => none

/-- Parse an integer JSON number (optional minus sign, one or more digits). -/
def parseJNum (s : Str) : Option (Int × Str) :=
  let step : Bool × Str := match s with
    | c :: r => if c = '-' then (true, r) else (false, s)
    | [] => (false, s)
  let digits := step.2.takeWhile (fun c => c.isDigit)
  let rest := step.2.dropWhile (fun c => c.isDigit)
  if digits = [] then none
  else
    let n : Nat := digits.foldl (fun acc c => acc * 10 + (c.toNat - 48)) 0
    some (if step.1 then -(n : Int) else (n : Int), rest)

/-- Parser modes: a full value, the items of an array (at least one expected),
or the fields of an object (at least one expected). -/
inductive PMode where
  | val : PMode
  | arrVal : PMode
  | objVal : PMode

/-- Recursive-descent JSON parser (fuel-based so that it computes). -/
def parseJ : Nat → PMode → Str → Option (Json × Str)
  | 0, _, _ => none
  | fuel + 1, PMode.val, s0 =>
    let s := skipWs s0
    match s with
    | [] => none
    | c :: rest =>
      if c = dquoteC then
        match parseJStr (rest.length + 1) rest with
        | some (str, r) => some (.jstr str, r)
        | none => none
      else if c = lbraceC then
        let r1 := skipWs rest
        match r1 with
        | c2 :: r2 => if c2 = rbraceC then some (.jobj [], r2) else parseJ fuel .objVal r1
        | [] => none
      else if c = lbrackC then
        let r1 := skipWs rest
        match r1 with
        | c2 :: r2 => if c2 = rbrackC then some (.jarr [], r2) else parseJ fuel .arrVal r1
        | [] => none
      else if startsWithL (sl "true") s then some (.jbool true, s.drop 4)
      else if startsWithL (sl "false") s then some (.jbool false, s.drop 5)
      else if startsWithL (sl "null") s then some (.jnull, s.drop 4)
      else
        match parseJNum s with
        | some (n, r) => some (.jnum n, r)
        | none => none
  | fuel + 1, PMode.arrVal, s =>
    match parseJ fuel .val s with
    | some (v, r1) =>
      match skipWs r1 with
      | c :: r2 =>
        if c = ',' then
          match parseJ fuel .arrVal (skipWs r2) with
          | some (.jarr items, r3) => some (.jarr (v :: items), r3)
          | _ => none
        else if c = rbrackC then some (.jarr [v], r2)
        else none
      | [] => none
    | none => none
  | fuel + 1, PMode.objVal, s =>
    match s with
    | c :: rest =>
      if c = dquoteC then
        match parseJStr (rest.length + 1) rest with
        | some (key, r1) =>
          match skipWs r1 with
          | c2 :: r2 =>
            if c2 = ':' then
              match parseJ fuel .val r2 with
              | some (v, r3) =>
                match skipWs r3 with
                | c3 :: r4 =>
                  if c3 = ',' then
                    match parseJ fuel .objVal (skipWs r4) with
                    | some (.jobj fields, r5) => some (.jobj ((key, v) :: fields), r5)
                    | _ => none
                  else if c3 = rbraceC then some (.jobj [(key, v)], r4)
                  else none
                | [] => none
              | none => none
            else none
          | [] => none
        | none => none
      else none
    | [] => none

/-- `json.loads`: parse a whole string as one JSON value (the remainder must
be whitespace), returning `none` where Python raises `JSONDecodeError`. -/
def jloads (s : Str) : Option Json :=
  match parseJ (2 * s.length + 4) .val s with
  | some (j, rest) => if skipWs rest = [] then some j else none
  | none => none

/-! ### Response parsers (`parse_section_response`, `parse_quotes_response`;
claims C2 and C6) -/

/-- Python exceptions that the parser bodies can raise (all are subclasses of
`Exception`, so the functions' outer `except Exception` handlers catch them). -/
inductive PyErr where
  | typeError : PyErr
  | keyError : PyErr
deriving DecidableEq

/-- Python `k in v` for a parsed JSON value: key membership for dicts, element
equality for lists, substring test for strings, `TypeError` otherwise. -/
def pyInJson (k : Str) (v : Json) : Except PyErr Bool :=
  match v with
  | .jobj kvs => .ok (kvs.any (fun kv => decide (kv.1 = k)))
  | .jarr xs => .ok (xs.any (fun x =>
      match x with
      | .jstr s => decide (s = k)
      | _ => false))
  | .jstr s => .ok (pyIn k s)
  | _ => .error .typeError

/-- Python `v[k]` on a parsed JSON value (`dict` lookup keeps the last
duplicate key; anything else raises). -/
def jIndex (v : Json) (k : Str) : Except PyErr Json :=
  match v with
  | .jobj kvs =>
    match kvs.reverse.find? (fun kv => decide (kv.1 = k)) with
    | some kv => .ok kv.2
    | none => .error .keyError
  | _ => .error .typeError

/-- `all(f in entry for f in keys)`, with Python's short-circuiting. -/
def allKeysIn (keys : List Str) (entry : Json) : Except PyErr Bool :=
  match keys with
  | [] => .ok true
  | k :: ks => do
    let b ← pyInJson k entry
    if b then allKeysIn ks entry else pure false

/-- The validation loop over entries of the parsed `sections`/`quotes` array:
keep only entries containing every required field.  A non-container entry
makes the membership test raise `TypeError`, which propagates. -/
def validEntries (keys : List Str) : List Json → Except PyErr (List Json)
  | [] => .ok []
  | e :: rest => do
    let b ← allKeysIn keys e
    let tail ← validEntries keys rest
    pure (if b then e :: tail else tail)

def sectionKeys : List Str :=
  [sl "start_phrase", sl "end_phrase", sl "category", sl "description"]

def quoteKeys : List Str := [sl "timestamp", sl "text", sl "significance"]

def firstIdxOf (c : Char) (s : Str) : Option Nat := s.findIdx? (fun x => x == c)

def lastIdxOf (c : Char) (s : Str) : Option Nat :=
  match s.reverse.findIdx? (fun x => x == c) with
  | some k => some (s.length - 1 - k)
  | none => none

/-- Model of `re.search` for the pattern brace, any characters, the quoted
`key`, any characters, closing brace (as used by both parsers).  The leftmost
greedy match runs from the first opening brace to the last closing brace,
and exists exactly when a quoted `key` occurs strictly between them. -/
def jsonCandidate (key : Str) (s : Str) : Option Str :=
  let lit := dquoteC :: key ++ [dquoteC]
  match firstIdxOf lbraceC s, lastIdxOf rbraceC s with
  | some i, some k =>
    if pyIn lit ((s.take k).drop (i + 1)) then some ((s.drop i).take (k - i + 1))
    else none
  | _, _ => none

/-! #### Legacy text-mode section parsing (lines 1174-1231 of the source) -/

def sectionHeaderMarkers : List Str :=
  [sl "INTERESTING SECTIONS:", sl "Interesting Sections:", sl "interesting sections:",
   sl "SECTIONS:", sl "Sections:", sl "sections:"]

/-- The four optional fields accumulated for one legacy `Section N:` item. -/
structure SecData where
  sp : Option Str
  ep : Option Str
  cat : Option Str
  desc : Option Str

/-- Characters stripped by `.strip(' "')`. -/
def stripQuoteSpace (c : Char) : Bool := c = ' ' || c = dquoteC

/-- One line of the legacy per-item field scan (case-insensitive prefixes;
later assignments overwrite earlier ones, as for a Python dict). -/
def sectionLineStep (d : SecData) (line0 : Str) : SecData :=
  let line := pyStrip line0
  let lower := pyLower line
  if startsWithL (sl "start:") lower then
    { d with sp := some (pyStripP stripQuoteSpace (afterFirstOcc [':'] line)) }
  else if startsWithL (sl "end:") lower then
    { d with ep := some (pyStripP stripQuoteSpace (afterFirstOcc [':'] line)) }
  else if startsWithL (sl "category:") lower then
    { d with cat := some (pyStrip (afterFirstOcc [':'] line)) }
  else if startsWithL (sl "description:") lower then
    { d with desc := some (pyStrip (afterFirstOcc [':'] line)) }
  else d

/-- One `Section N:`-delimited item: strip a `BORING SECTIONS` trailer, scan
the lines, and keep the item only if all four fields were found. -/
def parseSectionPart (part : Str) : Option Json :=
  let part1 :=
    if pyIn (sl "BORING SECTIONS:") part || pyIn (sl "Boring Sections:") part then
      beforeFirstOcc (sl "Boring Sections:") (beforeFirstOcc (sl "BORING SECTIONS:") part)
    else part
  let ls := splitOnSep (sl "\n") (pyStrip part1)
  let d := ls.foldl sectionLineStep ⟨none, none, none, none⟩
  match d.sp, d.ep, d.cat, d.desc with
  | some sp, some ep, some cat, some desc =>
    some (.jobj [(sl "start_phrase", .jstr sp), (sl "end_phrase", .jstr ep),
                 (sl "category", .jstr cat), (sl "description", .jstr desc)])
  | _, _, _, _ => none

/-- Legacy text-based section parsing (the fallback path of
`parse_section_response`). -/
def parseSectionLegacy (response : Str) : List Json :=
  let hasHeader := sectionHeaderMarkers.any (fun m => pyIn m response)
  if !hasHeader && !(pyIn (sl "Section ") response) && !(pyIn (sl "section ") response) then
    []
  else
    let parts :=
      if pyIn (sl "Section ") response then (splitOnSep (sl "Section ") response).drop 1
      else if pyIn (sl "section ") response then (splitOnSep (sl "section ") response).drop 1
      else []
    if parts.isEmpty then []
    else parts.filterMap parseSectionPart

/-- The body of `parse_section_response` (everything inside its `try`).  An
`error` carries the Python exception together with the current value of the
`sections` variable, which is what the handler then returns. -/
def parseSectionBody (response : Str) : Except (PyErr × List Json) (List Json) :=
  match jsonCandidate (sl "sections") response with
  | some json_str =>
    match jloads json_str with
    | some data =>
      match pyInJson (sl "sections") data with
      | .error e => .error (e, [])
      | .ok mem =>
        if mem then
          match jIndex data (sl "sections") with
          | .error e => .error (e, [])
          | .ok v =>
            match v with
            | .jarr entries =>
              match validEntries sectionKeys entries with
              | .ok valid => .ok valid
              | .error e => .error (e, entries)
            | _ => .ok (parseSectionLegacy response)
        else .ok (parseSectionLegacy response)
    | none => .ok (parseSectionLegacy response)
  | none => .ok (parseSectionLegacy response)

/-- `parse_section_response`: the body wrapped in its `except Exception`
handler, which logs and returns the current `sections` list. -/
def parse_section_response (response : Str) : Except PyErr (List Json) :=
  match parseSectionBody response with
  | .ok l => .ok l
  | .error (_, cur) => .ok cur

/-! #### Legacy text-mode quote parsing (lines 1284-1345 of the source) -/

/-- The fields accumulated for the `current_quote` dict. -/
structure QData where
  ts : Option Str
  txt : Option Str
  sig : Option Str

/-- Render `current_quote` as the dict appended to `quotes` (only fields that
were assigned are present; `timestamp` is always present when flushed). -/
def qToJson (q : QData) : Json :=
  .jobj ([(sl "timestamp", Json.jstr (q.ts.getD []))]
    ++ (match q.txt with | some t => [(sl "text", Json.jstr t)] | none => [])
    ++ (match q.sig with | some t => [(sl "significance", Json.jstr t)] | none => []))

/-- The leading `1. ` stripper: if the line starts with a digit, drop the
initial run of digits, dots, spaces and tabs (unless that is the whole line). -/
def digitStripLine (line : Str) : Str :=
  match line with
  | [] => line
  | c :: _ =>
    if c.isDigit then
      let pre := line.takeWhile (fun x => x.isDigit || x = '.' || x = ' ' || x = '\t')
      if pre.length < line.length then line.drop pre.length else line
    else line

/-- Characters stripped from a raw timestamp by `.strip('[]() \t')`. -/
def tsStripChar (c : Char) : Bool :=
  c = lbrackC || c = rbrackC || c = '(' || c = ')' || c = ' ' || c = '\t'

/-- Characters stripped from a raw quote text by `.strip('"\'')`
(double and single quotes). -/
def quoteStripChar (c : Char) : Bool := c = dquoteC || c = squoteC

/-- One line of the legacy quote scan, updating `(quotes, current_quote)`. -/
def quoteLineStep (st : List Json × QData) (line0 : Str) : List Json × QData :=
  let line1 := pyStrip line0
  let line := digitStripLine line1
  if pyIn (sl "Timestamp:") line || pyIn (sl "timestamp:") line then
    let flushed := if st.2.ts.isSome then st.1 ++ [qToJson st.2] else st.1
    let tsRaw := if pyIn (sl ":") line then pyStrip (afterFirstOcc (sl ":") line) else []
    (flushed, ⟨some (pyStripP tsStripChar tsRaw), none, none⟩)
  else if pyIn (sl "Quote:") line || pyIn (sl "quote:") line then
    let t := if pyIn (sl "Quote:") line then pyStrip (afterFirstOcc (sl "Quote:") line)
             else pyStrip (afterFirstOcc (sl "quote:") line)
    (st.1, { st.2 with txt := some (pyStripP quoteStripChar t) })
  else if pyIn (sl "Significance:") line || pyIn (sl "significance:") line then
    let t := if pyIn (sl "Significance:") line then
               pyStrip (afterFirstOcc (sl "Significance:") line)
             else pyStrip (afterFirstOcc (sl "significance:") line)
    (st.1, { st.2 with sig := some t })
  else st

/-- Legacy text-based quote parsing (the fallback path of
`parse_quotes_response`).  With a recognised marker, `parts` is the text
between the first two marker occurrences; otherwise, if a `Quote:` or
`Timestamp:` label occurs anywhere, the whole response is scanned. -/
def parseQuotesLegacy (response : Str) : List Json :=
  let partsOpt : Option Str :=
    if !(pyIn (sl "Key quotes:") response) && !(pyIn (sl "Key Quotes:") response)
        && !(pyIn (sl "QUOTES:") response) then
      if pyIn (sl "Quote:") response || pyIn (sl "Timestamp:") response then some response
      else none
    else
      if pyIn (sl "Key quotes:") response then
        some (pyStrip (betweenFirstTwo (sl "Key quotes:") response))
      else if pyIn (sl "Key Quotes:") response then
        some (pyStrip (betweenFirstTwo (sl "Key Quotes:") response))
      else some (pyStrip (betweenFirstTwo (sl "QUOTES:") response))
  match partsOpt with
  | none => []
  | some parts =>
    let st := (splitOnSep (sl "\n") parts).foldl quoteLineStep ([], ⟨none, none, none⟩)
    if st.2.ts.isSome then st.1 ++ [qToJson st.2] else st.1

/-- The body of `parse_quotes_response` (everything inside its `try`).  As for
sections, an `error` carries the current value of the `quotes` variable. -/
def parseQuotesBody (response : Str) : Except (PyErr × List Json) (List Json) :=
  match jsonCandidate (sl "quotes") response with
  | some json_str =>
    match jloads json_str with
    | some data =>
      match pyInJson (sl "quotes") data with
      | .error e => .error (e, [])
      | .ok mem =>
        if mem then
          match jIndex data (sl "quotes") with
          | .error e => .error (e, [])
          | .ok v =>
            match v with
            | .jarr entries =>
              match validEntries quoteKeys entries with
              | .ok valid => .ok valid
              | .error e => .error (e, entries)
            | _ => .ok (parseQuotesLegacy response)
        else .ok (parseQuotesLegacy response)
    | none => .ok (parseQuotesLegacy response)
  | none => .ok (parseQuotesLegacy response)

/-- `parse_quotes_response`: the body wrapped in its `except Exception`
handler, which logs and returns the current `quotes` list. -/
def parse_quotes_response (response : Str) : Except PyErr (List Json) :=
  match parseQuotesBody response with
  | .ok l => .ok l
  | .error (_, cur) => .ok cur

/-- C2: both response parsers are total: for every input string (empty,
truncated JSON, prose-wrapped JSON, anything), they return a list and never
let an exception escape — the outer `except Exception` handler converts any
body exception into returning the current (possibly empty) list. -/
theorem C2_parsers_total (response : Str) :
    (∃ l, parse_section_response response = Except.ok l) ∧
    (∃ l, parse_quotes_response response = Except.ok l) := by
  constructor
  · cases h : parseSectionBody response with
    | ok l => exact ⟨l, by simp [parse_section_response, h]⟩
    | error e => exact ⟨e.2, by simp [parse_section_response, h]⟩
  · cases h : parseQuotesBody response with
    | ok l => exact ⟨l, by simp [parse_quotes_response, h]⟩
    | error e => exact ⟨e.2, by simp [parse_quotes_response, h]⟩

/-- C6 counterexample input: well-formed embedded JSON whose single section
entry misses the required fields, followed by a parseable legacy item. -/
def exC6 : Str :=
  [lbraceC, dquoteC] ++ sl "sections" ++ [dquoteC] ++ sl ": [" ++ [lbraceC, dquoteC]
    ++ sl "category" ++ [dquoteC] ++ sl ": " ++ [dquoteC] ++ sl "hate"
    ++ [dquoteC, rbraceC, rbrackC, rbraceC]
    ++ sl "\nSection 1:\nStart: a\nEnd: b\nCategory: hate\nDescription: d"

/-- C6 (counterexample): on `exC6` the embedded JSON parses but yields zero
valid entries; the claim says the parser then falls back to the legacy
grammar, but `parse_section_response` returns the empty structured result
even though legacy parsing would produce a section. -/
theorem C6_counterexample :
    parse_section_response exC6 = Except.ok [] ∧
    parseSectionLegacy exC6 =
      [Json.jobj [(sl "start_phrase", Json.jstr (sl "a")),
        (sl "end_phrase", Json.jstr (sl "b")),
        (sl "category", Json.jstr (sl "hate")),
        (sl "description", Json.jstr (sl "d"))]] ∧
    parseSectionLegacy exC6 ≠ [] := by
  refine ⟨rfl, rfl, ?_⟩
  exact List.cons_ne_nil _ _

/-- C6 (amended): in both parsers, legacy text-mode parsing is attempted
exactly when structured mode finds no JSON candidate, the candidate fails to
parse, the parsed value lacks the expected key, or the keyed value is not a
list; when an embedded JSON object with the expected list parses, the
validated entries are returned directly — even when zero entries are valid —
with no legacy fallback. -/
theorem C6_fallback_conditions (r : Str) :
    (jsonCandidate (sl "sections") r = none →
      parse_section_response r = Except.ok (parseSectionLegacy r)) ∧
    (∀ js, jsonCandidate (sl "sections") r = some js → jloads js = none →
      parse_section_response r = Except.ok (parseSectionLegacy r)) ∧
    (∀ js d, jsonCandidate (sl "sections") r = some js → jloads js = some d →
      pyInJson (sl "sections") d = Except.ok false →
      parse_section_response r = Except.ok (parseSectionLegacy r)) ∧
    (∀ js d v, jsonCandidate (sl "sections") r = some js → jloads js = some d →
      pyInJson (sl "sections") d = Except.ok true →
      jIndex d (sl "sections") = Except.ok v → (∀ entries, v ≠ Json.jarr entries) →
      parse_section_response r = Except.ok (parseSectionLegacy r)) ∧
    (∀ js d entries v, jsonCandidate (sl "sections") r = some js → jloads js = some d →
      pyInJson (sl "sections") d = Except.ok true →
      jIndex d (sl "sections") = Except.ok (Json.jarr entries) →
      validEntries sectionKeys entries = Except.ok v →
      parse_section_response r = Except.ok v) ∧
    (jsonCandidate (sl "quotes") r = none →
      parse_quotes_response r = Except.ok (parseQuotesLegacy r)) ∧
    (∀ js, jsonCandidate (sl "quotes") r = some js → jloads js = none →
      parse_quotes_response r = Except.ok (parseQuotesLegacy r)) ∧
    (∀ js d, jsonCandidate (sl "quotes") r = some js → jloads js = some d →
      pyInJson (sl "quotes") d = Except.ok false →
      parse_quotes_response r = Except.ok (parseQuotesLegacy r)) ∧
    (∀ js d v, jsonCandidate (sl "quotes") r = some js → jloads js = some d →
      pyInJson (sl "quotes") d = Except.ok true →
      jIndex d (sl "quotes") = Except.ok v → (∀ entries, v ≠ Json.jarr entries) →
      parse_quotes_response r = Except.ok (parseQuotesLegacy r)) ∧
    (∀ js d entries v, jsonCandidate (sl "quotes") r = some js → jloads js = some d →
      pyInJson (sl "quotes") d = Except.ok true →
      jIndex d (sl "quotes") = Except.ok (Json.jarr entries) →
      validEntries quoteKeys entries = Except.ok v →
      parse_quotes_response r = Except.ok v) := by
  refine ⟨?_, ?_, ?_, ?_, ?_, ?_, ?_, ?_, ?_, ?_⟩
  · intro hc
    simp [parse_section_response, parseSectionBody, hc]
  · intro js hc hl
    simp [parse_section_response, parseSectionBody, hc, hl]
  · intro js d hc hl hm
    simp [parse_section_response, parseSectionBody, hc, hl, hm]
  · intro js d v hc hl hm hi hnl
    cases v with
    | jarr entries => exact absurd rfl (hnl entries)
    | jnull => simp [parse_section_response, parseSectionBody, hc, hl, hm, hi]
    | jbool b => simp [parse_section_response, parseSectionBody, hc, hl, hm, hi]
    | jnum n => simp [parse_section_response, parseSectionBody, hc, hl, hm, hi]
    | jstr s => simp [parse_section_response, parseSectionBody, hc, hl, hm, hi]
    | jobj kvs => simp [parse_section_response, parseSectionBody, hc, hl, hm, hi]
  · intro js d entries v hc hl hm hi hv
    simp [parse_section_response, parseSectionBody, hc, hl, hm, hi, hv]
  · intro hc
    simp [parse_quotes_response, parseQuotesBody, hc]
  · intro js hc hl
    simp [parse_quotes_response, parseQuotesBody, hc, hl]
  · intro js d hc hl hm
    simp [parse_quotes_response, parseQuotesBody, hc, hl, hm]
  · intro js d v hc hl hm hi hnl
    cases v with
    | jarr entries => exact absurd rfl (hnl entries)
    | jnull => simp [parse_quotes_response, parseQuotesBody, hc, hl, hm, hi]
    | jbool b => simp [parse_quotes_response, parseQuotesBody, hc, hl, hm, hi]
    | jnum n => simp [parse_quotes_response, parseQuotesBody, hc, hl, hm, hi]
    | jstr s => simp [parse_quotes_response, parseQuotesBody, hc, hl, hm, hi]
    | jobj kvs => simp [parse_quotes_response, parseQuotesBody, hc, hl, hm, hi]
  · intro js d entries v hc hl hm hi hv
    simp [parse_quotes_response, parseQuotesBody, hc, hl, hm, hi, hv]

/-- Witness for C6 (amended): a response with no JSON candidate is parsed by
the legacy path. -/
theorem C6_fallback_conditions_witness :
    parse_section_response (sl "hello") = Except.ok (parseSectionLegacy (sl "hello")) :=
  (C6_fallback_conditions (sl "hello")).1 rfl

/-! ### Retry loop (`identify_interesting_sections`; claims C3, C7) -/

/-- The content-policy refusal indicators (apostrophes built by code point). -/
def refusal_indicators : List Str :=
  [sl "I cannot",
   sl "I can" ++ [squoteC] ++ sl "t",
   sl "I" ++ [squoteC] ++ sl "m not able to",
   sl "I don" ++ [squoteC] ++ sl "t feel comfortable",
   sl "I apologize, but",
   sl "against my guidelines",
   sl "content policy",
   sl "I" ++ [squoteC] ++ sl "m designed to",
   sl "I shouldn" ++ [squoteC] ++ sl "t"]

/-- `any(indicator.lower() in response.lower()[:200] for indicator in ...)`. -/
def isRefusalResponse (r : Str) : Bool :=
  refusal_indicators.any (fun ind => pyIn (pyLower ind) ((pyLower r).take 200))

/-- Outcome of one retry-loop attempt, in the order the source checks them:
empty response, refusal phrasing, zero parsed sections, or success. -/
inductive AttemptOut where
  | failEmpty : AttemptOut
  | failRefusal : AttemptOut
  | failParse : AttemptOut
  | success : List Json → AttemptOut

def AttemptOut.failed : AttemptOut → Bool
  | .success _ => false
  | _ => true

/-- Classify one attempt of `identify_interesting_sections` from the
inference response (`none` models `call_ai` returning `None`; note that a
refusal is classified before the response is ever parsed). -/
def classifyAttempt (resp : Option Str) : AttemptOut :=
  match resp with
  | none => .failEmpty
  | some r =>
    if r = [] then .failEmpty
    else if isRefusalResponse r then .failRefusal
    else
      match parse_section_response r with
      | .ok secs => if secs.isEmpty then .failParse else .success secs
      | .error _ => .failParse

/-- The `for attempt in range(1, MAX_RETRIES + 1)` loop, returning the outcome
and the number of attempts consumed.  `remaining` counts the attempts still
allowed, including the current one; on a failure with `remaining = 1` the
source raises (`Except.error`). -/
def identifyGo (responses : Nat → Option Str) : Nat → Nat → Except Unit (List Json) × Nat
  | _, 0 => (.error (), 0)
  | attempt, remaining + 1 =>
    match classifyAttempt (responses attempt) with
    | .success secs => (.ok secs, 1)
    | _ =>
      if remaining = 0 then (.error (), 1)
      else
        ((identifyGo responses (attempt + 1) remaining).1,
         (identifyGo responses (attempt + 1) remaining).2 + 1)

/-- `identify_interesting_sections` with the inference call abstracted as an
oracle from 1-based attempt number to response; `MAX_RETRIES = 3`. -/
def identify_interesting_sections (responses : Nat → Option Str) :
    Except Unit (List Json) × Nat :=
  identifyGo responses 1 3

/-- Per-chunk bookkeeping of the `analyze_with_ai` chunk loop. -/
structure ChunkLoopState where
  failed_chunks : List Nat
  completed_chunks : Nat
  collected : List (List Json)

/-- The `for i, chunk in enumerate(chunks, 1)` loop of `analyze_with_ai`,
restricted to its control flow: a chunk whose identification raised after its
retries is recorded in `failed_chunks` and the loop continues with the rest. -/
def chunkLoopGo : List (Except Unit (List Json)) → Nat → ChunkLoopState → ChunkLoopState
  | [], _, st => st
  | .error _ :: rest, i, st =>
    chunkLoopGo rest (i + 1)
      ⟨st.failed_chunks ++ [i], st.completed_chunks + 1, st.collected⟩
  | .ok secs :: rest, i, st =>
    chunkLoopGo rest (i + 1)
      ⟨st.failed_chunks, st.completed_chunks + 1, st.collected ++ [secs]⟩

def runChunkLoop (outcomes : List (Except Unit (List Json))) : ChunkLoopState :=
  chunkLoopGo outcomes 1 ⟨[], 0, []⟩

/-- 1-based indices of the failed outcomes. -/
def errorIndices : List (Except Unit (List Json)) → Nat → List Nat
  | [], _ => []
  | .error _ :: rest, i => i :: errorIndices rest (i + 1)
  | .ok _ :: rest, i => errorIndices rest (i + 1)

/-- The per-chunk section lists of the successful outcomes, in order. -/
def okParts : List (Except Unit (List Json)) → List (List Json)
  | [] => []
  | .error _ :: rest => okParts rest
  | .ok secs :: rest => secs :: okParts rest

lemma chunkLoopGo_spec :
    ∀ (outcomes : List (Except Unit (List Json))) (i : Nat) (st : ChunkLoopState),
      chunkLoopGo outcomes i st =
        ⟨st.failed_chunks ++ errorIndices outcomes i,
         st.completed_chunks + outcomes.length,
         st.collected ++ okParts outcomes⟩ := by
  intro outcomes
  induction outcomes with
  | nil => intro i st; simp [chunkLoopGo, errorIndices, okParts]
  | cons o rest ih =>
    intro i st
    cases o with
    | error e =>
      rw [chunkLoopGo, ih]
      simp [errorIndices, okParts]
      omega
    | ok secs =>
      rw [chunkLoopGo, ih]
      simp [errorIndices, okParts]
      omega

lemma identifyGo_fail_step (responses : Nat → Option Str) (attempt remaining : Nat)
    (h : (classifyAttempt (responses attempt)).failed = true) :
    identifyGo responses attempt (remaining + 1) =
      if remaining = 0 then (Except.error (), 1)
      else ((identifyGo responses (attempt + 1) remaining).1,
            (identifyGo responses (attempt + 1) remaining).2 + 1) := by
  cases hcl : classifyAttempt (responses attempt) with
  | success secs =>
    rw [hcl] at h
    exact absurd h (by simp [AttemptOut.failed])
  | failEmpty => rw [identifyGo, hcl]
  | failRefusal => rw [identifyGo, hcl]
  | failParse => rw [identifyGo, hcl]

/-- C3: with the first `n` inference responses failing (empty, refusal, or
zero sections parsed), the retry loop consumes exactly `min n 3` failing
attempts: with `n ≥ 3` it raises after exactly 3 attempts, with `n < 3` it
succeeds on attempt `n + 1`; and the controller records failed chunks and
continues with every remaining chunk — the whole run never aborts because of
one chunk (every outcome is processed, failures only accumulate in
`failed_chunks`). -/
theorem C3_retry_and_continue (responses : Nat → Option Str) (n : Nat)
    (hfail : ∀ k, 1 ≤ k → k ≤ n → (classifyAttempt (responses k)).failed = true) :
    (3 ≤ n → identify_interesting_sections responses = (Except.error (), 3)) ∧
    (n < 3 → ∀ secs, classifyAttempt (responses (n + 1)) = AttemptOut.success secs →
      identify_interesting_sections responses = (Except.ok secs, n + 1)) ∧
    (∀ outcomes : List (Except Unit (List Json)),
      runChunkLoop outcomes =
        ⟨errorIndices outcomes 1, outcomes.length, okParts outcomes⟩) := by
  refine ⟨?_, ?_, ?_⟩
  · intro h3
    have h1 := hfail 1 (by omega) (by omega)
    have h2 := hfail 2 (by omega) (by omega)
    have h3f := hfail 3 (by omega) (by omega)
    rw [identify_interesting_sections,
      identifyGo_fail_step responses 1 2 h1, if_neg (by omega),
      identifyGo_fail_step responses 2 1 h2, if_neg (by omega),
      identifyGo_fail_step responses 3 0 h3f, if_pos rfl]
  · intro hlt secs hsucc
    interval_cases n
    · rw [identify_interesting_sections, identifyGo, hsucc]
    · have h1 := hfail 1 (by omega) (by omega)
      rw [identify_interesting_sections,
        identifyGo_fail_step responses 1 2 h1, if_neg (by omega),
        identifyGo, hsucc]
    · have h1 := hfail 1 (by omega) (by omega)
      have h2 := hfail 2 (by omega) (by omega)
      rw [identify_interesting_sections,
        identifyGo_fail_step responses 1 2 h1, if_neg (by omega),
        identifyGo_fail_step responses 2 1 h2, if_neg (by omega),
        identifyGo, hsucc]
  · intro outcomes
    rw [runChunkLoop, chunkLoopGo_spec]
    simp

/-- Witness for C3: two failing responses (one empty, one refusal), then a
success; the loop succeeds on attempt 3 after exactly 2 failing attempts,
and a mixed chunk-outcome list is fully processed with the failure recorded. -/
theorem C3_retry_and_continue_witness :
    (identify_interesting_sections
        (fun k => if k = 1 then none
          else if k = 2 then some (sl "I cannot")
          else some (sl "Section 1:\nStart: a\nEnd: b\nCategory: hate\nDescription: d"))
      = (Except.ok [Json.jobj [(sl "start_phrase", Json.jstr (sl "a")),
          (sl "end_phrase", Json.jstr (sl "b")),
          (sl "category", Json.jstr (sl "hate")),
          (sl "description", Json.jstr (sl "d"))]], 3)) ∧
    runChunkLoop [Except.error (), Except.ok [Json.jnum 7]]
      = ⟨[1], 2, [[Json.jnum 7]]⟩ := by
  constructor
  · exact (C3_retry_and_continue
      (fun k => if k = 1 then none
        else if k = 2 then some (sl "I cannot")
        else some (sl "Section 1:\nStart: a\nEnd: b\nCategory: hate\nDescription: d"))
      2 (by
        intro k h1 h2
        interval_cases k
        · rfl
        · rfl)).2.1 (by omega) _ rfl
  · exact ((C3_retry_and_continue (fun _ => none) 0 (by intro k h1 h2; omega)).2.2
      [Except.error (), Except.ok [Json.jnum 7]]).trans rfl

/-- C7: a non-empty response whose first 200 characters contain a refusal
indicator (case-insensitively) is classified as a refusal — before any
section parsing, so even a response that also contains a valid JSON sections
object is retried — and with every attempt refused the loop raises after its
3 attempts. -/
theorem C7_refusal_blocks_parse (r : Str) (hne : r ≠ [])
    (href : isRefusalResponse r = true) :
    classifyAttempt (some r) = AttemptOut.failRefusal ∧
    (∀ responses : Nat → Option Str, (∀ k, responses k = some r) →
      identify_interesting_sections responses = (Except.error (), 3)) := by
  have hcl : classifyAttempt (some r) = AttemptOut.failRefusal := by
    rw [classifyAttempt]
    rw [if_neg hne, if_pos href]
  refine ⟨hcl, ?_⟩
  intro responses hall
  have hf : ∀ k, (classifyAttempt (responses k)).failed = true := by
    intro k
    rw [hall k, hcl]
    rfl
  rw [identify_interesting_sections,
    identifyGo_fail_step responses 1 2 (hf 1), if_neg (by omega),
    identifyGo_fail_step responses 2 1 (hf 2), if_neg (by omega),
    identifyGo_fail_step responses 3 0 (hf 3), if_pos rfl]

/-- C7 witness input: refusal phrasing followed by a JSON sections object
that would parse to a non-empty valid section list. -/
def exRefusal : Str :=
  sl "I cannot comply. " ++ [lbraceC, dquoteC] ++ sl "sections" ++ [dquoteC]
    ++ sl ": [" ++ [lbraceC, dquoteC] ++ sl "start_phrase" ++ [dquoteC] ++ sl ": "
    ++ [dquoteC] ++ sl "a" ++ [dquoteC] ++ sl ", " ++ [dquoteC] ++ sl "end_phrase"
    ++ [dquoteC] ++ sl ": " ++ [dquoteC] ++ sl "b" ++ [dquoteC] ++ sl ", "
    ++ [dquoteC] ++ sl "category" ++ [dquoteC] ++ sl ": " ++ [dquoteC] ++ sl "hate"
    ++ [dquoteC] ++ sl ", " ++ [dquoteC] ++ sl "description" ++ [dquoteC] ++ sl ": "
    ++ [dquoteC] ++ sl "d" ++ [dquoteC, rbraceC, rbrackC, rbraceC]

/-- Witness for C7: `exRefusal` would parse to a non-empty section list, yet
it is classified as a refusal and the loop raises after 3 attempts. -/
theorem C7_refusal_blocks_parse_witness :
    classifyAttempt (some exRefusal) = AttemptOut.failRefusal ∧
    identify_interesting_sections (fun _ => some exRefusal) = (Except.error (), 3) ∧
    parse_section_response exRefusal =
      Except.ok [Json.jobj [(sl "start_phrase", Json.jstr (sl "a")),
        (sl "end_phrase", Json.jstr (sl "b")),
        (sl "category", Json.jstr (sl "hate")),
        (sl "description", Json.jstr (sl "d"))]] ∧
    [Json.jobj [(sl "start_phrase", Json.jstr (sl "a")),
        (sl "end_phrase", Json.jstr (sl "b")),
        (sl "category", Json.jstr (sl "hate")),
        (sl "description", Json.jstr (sl "d"))]] ≠ ([] : List Json) := by
  have h := C7_refusal_blocks_parse exRefusal (by decide) (by rfl)
  exact ⟨h.1, h.2 _ (fun k => rfl), rfl, List.cons_ne_nil _ _⟩

/-! ### Display-time formatting (`format_display_time`) -/

/-- Python float `a // b` (floor division). -/
def pyFloorDiv (a b : ℚ) : ℚ := ((⌊a / b⌋ : ℤ) : ℚ)

/-- Python float `a % b` (result has the divisor's sign; for the nonnegative
operands used here, ordinary floor-modulus). -/
def pyMod (a b : ℚ) : ℚ := a - b * ((⌊a / b⌋ : ℤ) : ℚ)

/-- Python `int(q)`: truncation toward zero. -/
def pyInt (q : ℚ) : ℤ := if q < 0 then -⌊-q⌋ else ⌊q⌋

def natStr (n : Nat) : Str := (toString n).data

def intStr (i : ℤ) : Str := if i < 0 then '-' :: natStr i.natAbs else natStr i.natAbs

/-- Python `to a width of 2 with 0` formatting (`{n:02d}`). -/
def pad2 (i : ℤ) : Str := if 0 ≤ i ∧ i < 10 then '0' :: intStr i else intStr i

/-- `format_display_time(seconds)`: `H:MM:SS` when at least an hour, else `M:SS`. -/
def format_display_time (seconds : ℚ) : Str :=
  let hours := pyInt (pyFloorDiv seconds 3600)
  let minutes := pyInt (pyFloorDiv (pyMod seconds 3600) 60)
  let secs := pyInt (pyMod seconds 60)
  if 0 < hours then intStr hours ++ ':' :: pad2 minutes ++ ':' :: pad2 secs
  else intStr minutes ++ ':' :: pad2 secs

/-! ### Safety net of `analyze_with_ai` (claim C1) -/

/-- One analyzed section as assembled by the pipeline. -/
structure AnalyzedSection where
  category : Str
  description : Str
  start_time : Str
  end_time : Option Str
  quotes : List Json

def noSpeechDesc : Str :=
  sl "No speech or dialogue detected in this video. The video may contain only music, sound effects, or be silent."

def minimalDesc : Str :=
  sl "Very brief or minimal audio content detected. The video appears to have little to no meaningful dialogue."

def ambientDesc : Str :=
  sl "Video primarily contains music or ambient audio with minimal speech content."

def genericDesc : Str :=
  sl "Analysis could not identify specific notable sections. The content appears to be general discussion or routine material."

def musicMarkers : List Str := [sl "music", sl "[music]", sl "[sound]", sl "[noise]"]

/-- The description cascade of the zero-sections safety net (source lines
609-619): empty stripped transcript, then very short, then music/noise
markers, then generic. -/
def defaultSectionDescription (transcript_text : Str) : Str :=
  let transcript_length := (pyStrip transcript_text).length
  if transcript_length = 0 then noSpeechDesc
  else if transcript_length < 50 then minimalDesc
  else if musicMarkers.any (fun w => pyIn w (pyLower transcript_text)) then ambientDesc
  else genericDesc

/-- `segments[-1]['end'] if segments else 0`. -/
def videoDuration (segments : List Segment) : ℚ :=
  match segments.getLast? with
  | some l => l.stop
  | none => 0

/-- The synthesized default section covering the whole video (lines 622-628). -/
def defaultRoutineSection (transcript_text : Str) (segments : List Segment) :
    AnalyzedSection :=
  { category := sl "routine",
    description := defaultSectionDescription transcript_text,
    start_time := sl "0:00",
    end_time := if 0 < videoDuration segments
                then some (format_display_time (videoDuration segments)) else none,
    quotes := [] }

/-- The end of `analyze_with_ai`: append the default section exactly when the
chunk loop accumulated zero sections (lines 602-630). -/
def finalizeSections (loopSections : List AnalyzedSection) (transcript_text : Str)
    (segments : List Segment) : List AnalyzedSection :=
  if loopSections.length = 0 then
    loopSections ++ [defaultRoutineSection transcript_text segments]
  else loopSections

/-- The `sections_count` field of the returned `AnalysisResult` (line 657). -/
def sections_count (loopSections : List AnalyzedSection) (transcript_text : Str)
    (segments : List Segment) : Nat :=
  (finalizeSections loopSections transcript_text segments).length

/-- C1: a completed `analyze_with_ai` run on a non-empty segment list reports
`sections_count ≥ 1`; when the chunk loop produced zero sections, exactly one
default routine section spanning the whole video is appended, with the
description chosen from the transcript: empty → no-speech, shorter than 50
characters → minimal-content, music/noise markers → ambient-audio, else
generic. -/
theorem C1_safety_net (loopSections : List AnalyzedSection) (transcript_text : Str)
    (segments : List Segment) (hseg : segments ≠ []) :
    1 ≤ sections_count loopSections transcript_text segments ∧
    (loopSections = [] →
      finalizeSections loopSections transcript_text segments
        = [defaultRoutineSection transcript_text segments] ∧
      (defaultRoutineSection transcript_text segments).category = sl "routine" ∧
      (defaultRoutineSection transcript_text segments).start_time = sl "0:00" ∧
      (0 < videoDuration segments →
        (defaultRoutineSection transcript_text segments).end_time
          = some (format_display_time (videoDuration segments))) ∧
      ((pyStrip transcript_text).length = 0 →
        (defaultRoutineSection transcript_text segments).description = noSpeechDesc) ∧
      ((pyStrip transcript_text).length ≠ 0 → (pyStrip transcript_text).length < 50 →
        (defaultRoutineSection transcript_text segments).description = minimalDesc) ∧
      ((pyStrip transcript_text).length ≠ 0 → ¬ (pyStrip transcript_text).length < 50 →
        musicMarkers.any (fun w => pyIn w (pyLower transcript_text)) = true →
        (defaultRoutineSection transcript_text segments).description = ambientDesc) ∧
      ((pyStrip transcript_text).length ≠ 0 → ¬ (pyStrip transcript_text).length < 50 →
        musicMarkers.any (fun w => pyIn w (pyLower transcript_text)) = false →
        (defaultRoutineSection transcript_text segments).description = genericDesc)) := by
  constructor
  · rw [sections_count, finalizeSections]
    by_cases h : loopSections.length = 0
    · rw [if_pos h]
      simp
    · rw [if_neg h]
      omega
  · intro hnil
    refine ⟨?_, rfl, rfl, ?_, ?_, ?_, ?_, ?_⟩
    · rw [finalizeSections, hnil]
      simp
    · intro hdur
      rw [defaultRoutineSection]
      simp only [if_pos hdur]
    · intro h0
      rw [defaultRoutineSection]
      simp [defaultSectionDescription, h0]
    · intro h0 h50
      rw [defaultRoutineSection]
      simp only [defaultSectionDescription]
      rw [if_neg h0, if_pos h50]
    · intro h0 h50 hmk
      rw [defaultRoutineSection]
      simp only [defaultSectionDescription]
      rw [if_neg h0, if_neg h50, if_pos hmk]
    · intro h0 h50 hmk
      rw [defaultRoutineSection]
      simp only [defaultSectionDescription]
      rw [if_neg h0, if_neg h50, if_neg (by rw [hmk]; exact Bool.false_ne_true)]

/-- Witness for C1: empty transcript, one segment, zero loop sections. -/
theorem C1_safety_net_witness :
    1 ≤ sections_count [] (sl "") [⟨0, 10, sl "x"⟩] ∧
    finalizeSections [] (sl "") [⟨0, 10, sl "x"⟩]
      = [defaultRoutineSection (sl "") [⟨0, 10, sl "x"⟩]] := by
  have h := C1_safety_net [] (sl "") [⟨0, 10, sl "x"⟩] (by decide)
  exact ⟨h.1, (h.2 rfl).1⟩

/-! ### `analyze_section_detail` (claim C9) -/

/-- The fields of a first-pass section dict used by `analyze_section_detail`. -/
structure RawSec where
  category : Str
  description : Str
  start_phrase : Str
  end_phrase : Str

/-- `extract_segment_range`: segments fully contained in `[start, end]`. -/
def extract_segment_range (segments : List Segment) (start_time end_time : ℚ) :
    List Segment :=
  segments.filter (fun s => decide (start_time ≤ s.start ∧ s.stop ≤ end_time))

/-- `analyze_section_detail` with the quote-extraction inference call
abstracted as `aiResponse` (the prompt built from the timestamped
sub-transcript does not influence the returned value beyond that response). -/
def analyze_section_detail (aiResponse : Option Str) (sec : RawSec)
    (all_segments : List Segment) : Option AnalyzedSection :=
  match find_phrase_timestamp sec.start_phrase all_segments (1 / 2),
        find_phrase_timestamp sec.end_phrase all_segments (1 / 2) with
  | some start_time, some end_time0 =>
    let end_time := if end_time0 ≤ start_time then start_time + 30 else end_time0
    let rng0 := extract_segment_range all_segments start_time end_time
    let rng := if rng0.isEmpty
               then extract_segment_range all_segments (start_time - 5) (end_time + 5)
               else rng0
    if rng.isEmpty then none
    else
      match aiResponse with
      | none => none
      | some response =>
        let quotes := match parse_quotes_response response with
                      | .ok l => l
                      | .error _ => []
        if quotes.isEmpty then none
        else some { category := sec.category, description := sec.description,
                    start_time := format_display_time start_time,
                    end_time := some (format_display_time end_time),
                    quotes := quotes }
  | _, _ => none

/-- C9: when both phrases correlate and the resolved end time is not after the
resolved start time, the section is not dropped for that reason: any emitted
section carries `end_time = start_time + 30` (display-formatted) with the
start time unchanged. -/
theorem C9_end_time_buffer (aiResponse : Option Str) (sec : RawSec)
    (segs : List Segment) (st et0 : ℚ)
    (hst : find_phrase_timestamp sec.start_phrase segs (1 / 2) = some st)
    (het : find_phrase_timestamp sec.end_phrase segs (1 / 2) = some et0)
    (hle : et0 ≤ st) :
    ∀ out, analyze_section_detail aiResponse sec segs = some out →
      out.start_time = format_display_time st ∧
      out.end_time = some (format_display_time (st + 30)) := by
  intro out hout
  simp only [analyze_section_detail, hst, het, if_pos hle] at hout
  by_cases hr : ((if (extract_segment_range segs st (st + 30)).isEmpty = true
      then extract_segment_range segs (st - 5) (st + 30 + 5)
      else extract_segment_range segs st (st + 30)).isEmpty = true)
  · rw [if_pos hr] at hout
    exact absurd hout (by simp)
  · rw [if_neg hr] at hout
    cases aiResponse with
    | none => exact absurd hout (by simp)
    | some response =>
      simp only at hout
      by_cases hq : (match parse_quotes_response response with
          | .ok l => l
          | .error _ => []).isEmpty = true
      · rw [if_pos hq] at hout
        exact absurd hout (by simp)
      · rw [if_neg hq] at hout
        have := Option.some.inj hout
        rw [← this]
        exact ⟨rfl, rfl⟩

/-- C9 witness inputs: phrases resolving to `start = 50`, `end = 10 ≤ 50`. -/
def exDetailSegs : List Segment := [⟨10, 12, sl "bbb"⟩, ⟨50, 52, sl "aaa"⟩]

def exDetailSec : RawSec := ⟨sl "hate", sl "d", sl "aaa", sl "bbb"⟩

/-- C9 witness response: one valid quote entry. -/
def exQResp : Str :=
  [lbraceC, dquoteC] ++ sl "quotes" ++ [dquoteC] ++ sl ": [" ++ [lbraceC, dquoteC]
    ++ sl "timestamp" ++ [dquoteC] ++ sl ": " ++ [dquoteC] ++ sl "0:50" ++ [dquoteC]
    ++ sl ", " ++ [dquoteC] ++ sl "text" ++ [dquoteC] ++ sl ": " ++ [dquoteC] ++ sl "q"
    ++ [dquoteC] ++ sl ", " ++ [dquoteC] ++ sl "significance" ++ [dquoteC] ++ sl ": "
    ++ [dquoteC] ++ sl "s" ++ [dquoteC, rbraceC, rbrackC, rbraceC]

/-- Witness for C9 at concrete inputs where the section is emitted. -/
theorem C9_end_time_buffer_witness :
    ∃ out, analyze_section_detail (some exQResp) exDetailSec exDetailSegs = some out ∧
      out.start_time = format_display_time (50 : ℚ) ∧
      out.end_time = some (format_display_time ((50 : ℚ) + 30)) := by
  have heval : ∃ out,
      analyze_section_detail (some exQResp) exDetailSec exDetailSegs = some out := ⟨_, rfl⟩
  obtain ⟨out, hout⟩ := heval
  exact ⟨out, hout, C9_end_time_buffer (some exQResp) exDetailSec exDetailSegs 50 10
    rfl rfl (by norm_num) out hout⟩

/-! ### `write_section_to_file` (claim C10) -/

/-- `"=" * 80`, `"-" * 80`. -/
def rule80 (c : Char) : Str := List.replicate 80 c

/-- The header written when `is_first` is set. -/
def fileHeader : Str :=
  rule80 '=' ++ sl "\n" ++ sl "VIDEO ANALYSIS RESULTS\n" ++ rule80 '=' ++ sl "\n\n"

/-- `quote['timestamp']`-style access, totalised to the empty string: the
quotes reaching the writer on the paths modelled here are validated dicts
with string fields, for which this agrees with Python. -/
def jGetStrD (q : Json) (k : Str) : Str :=
  match q with
  | .jobj kvs =>
    match kvs.reverse.find? (fun kv => decide (kv.1 = k)) with
    | some kv =>
      match kv.2 with
      | .jstr s => s
      | _ => []
    | none => []
  | _ => []

/-- The lines written for one quote of a non-routine section. -/
def quoteRender (q : Json) : Str :=
  jGetStrD q (sl "timestamp") ++ sl " - " ++ [dquoteC] ++ jGetStrD q (sl "text")
    ++ [dquoteC] ++ sl "\n"
    ++ (if jGetStrD q (sl "significance") ≠ [] then
          sl "   → " ++ jGetStrD q (sl "significance") ++ sl "\n"
        else [])
    ++ sl "\n"

/-- The text appended to the output file by `write_section_to_file` (the file
write itself is the only effect; its content is this string). -/
def write_section_text (sec : AnalyzedSection) (is_first : Bool) : Str :=
  (if is_first then fileHeader else [])
    ++ (if sec.category = sl "routine" then
          sl "**" ++ sec.start_time ++ sl " - " ++ sec.description ++ sl " [routine]**\n\n"
        else
          (match sec.end_time with
           | some e =>
             if e ≠ [] then
               sl "**" ++ sec.start_time ++ sl " - " ++ e ++ sl " - " ++ sec.description
                 ++ sl " [" ++ sec.category ++ sl "]**\n\n"
             else
               sl "**" ++ sec.start_time ++ sl " - " ++ sec.description
                 ++ sl " [" ++ sec.category ++ sl "]**\n\n"
           | none =>
             sl "**" ++ sec.start_time ++ sl " - " ++ sec.description
               ++ sl " [" ++ sec.category ++ sl "]**\n\n")
          ++ (sec.quotes.map quoteRender).flatten)
    ++ rule80 '-' ++ sl "\n\n"

/-- C10: for a routine section the writer emits only the single header line
and the separator rule — never any quote or significance lines — regardless
of the section's quotes list. -/
theorem C10_routine_write (sec : AnalyzedSection) (is_first : Bool)
    (hcat : sec.category = sl "routine") :
    write_section_text sec is_first =
      (if is_first then fileHeader else []) ++ sl "**" ++ sec.start_time ++ sl " - "
        ++ sec.description ++ sl " [routine]**\n\n" ++ rule80 '-' ++ sl "\n\n" ∧
    (∀ qs, write_section_text { sec with quotes := qs } is_first
      = write_section_text sec is_first) := by
  constructor
  · rw [write_section_text, if_pos hcat]
    simp [List.append_assoc]
  · intro qs
    rw [write_section_text, write_section_text]
    simp only [if_pos hcat]

/-- Witness for C10: a routine section with a non-empty quotes list. -/
theorem C10_routine_write_witness :
    write_section_text ⟨sl "routine", sl "desc", sl "0:00", none, [Json.jnum 1]⟩ false =
      (if false then fileHeader else []) ++ sl "**" ++ sl "0:00" ++ sl " - "
        ++ sl "desc" ++ sl " [routine]**\n\n" ++ rule80 '-' ++ sl "\n\n" :=
  (C10_routine_write ⟨sl "routine", sl "desc", sl "0:00", none, [Json.jnum 1]⟩
    false rfl).1

/-! ### Prompt builder (claim C8) -/

/-- A category entry as supplied to the analysis command. -/
structure Category where
  name : Str
  description : Str
  enabled : Bool

/-- The configuration error of the prompt builder. -/
inductive ConfigError where
  | noEnabledCategories : ConfigError
deriving DecidableEq

/-- Modelled from the spec: `build_section_identification_prompt` is imported
from `analysis_prompts` but its definition is missing from the sources (the
module on hand defines only the prompt template strings).  Per spec §4.2 the
builder renders one instruction string from the enabled categories, the
optional title and custom-instruction contexts, the chunk number and the
chunk text, and "fails with a configuration error if no categories are
supplied or none are enabled". -/
def build_section_identification_prompt (title_context custom_section : Str)
    (chunk_num : Nat) (chunk_text : Str) (categories : Option (List Category)) :
    Except ConfigError Str :=
  match categories with
  | none => .error .noEnabledCategories
  | some cats =>
    let enabled := cats.filter (fun c => c.enabled)
    if enabled.isEmpty then .error .noEnabledCategories
    else
      .ok (title_context ++ custom_section ++ natStr chunk_num
        ++ (enabled.map (fun c => c.name ++ sl ": " ++ c.description)).flatten
        ++ chunk_text)

/-- The prompt-building prefix of one attempt of
`identify_interesting_sections` (source lines 736-746): the prompt is built
before `call_ai` is invoked; the `Nat` counts inference calls made. -/
def identifyAttemptCalls (title_context custom_section : Str) (chunk_num : Nat)
    (chunk_text : Str) (categories : Option (List Category))
    (callResult : Option Str) : Except ConfigError (Option Str) × Nat :=
  match build_section_identification_prompt title_context custom_section chunk_num
      chunk_text categories with
  | .error e => (.error e, 0)
  | .ok _prompt => (.ok callResult, 1)

/-- C8: with no category list, an empty list, or a list with no enabled entry,
prompt construction fails with the configuration error, and the failure
happens before any inference call is made (zero calls). -/
theorem C8_config_failfast (tc cs : Str) (n : Nat) (text : Str)
    (categories : Option (List Category))
    (hcat : categories = none ∨
      ∃ l, categories = some l ∧ l.filter (fun c => c.enabled) = []) :
    build_section_identification_prompt tc cs n text categories
      = Except.error ConfigError.noEnabledCategories ∧
    (∀ callResult, identifyAttemptCalls tc cs n text categories callResult
      = (Except.error ConfigError.noEnabledCategories, 0)) := by
  have hbuild : build_section_identification_prompt tc cs n text categories
      = Except.error ConfigError.noEnabledCategories := by
    rcases hcat with rfl | ⟨l, rfl, hfil⟩
    · rfl
    · rw [build_section_identification_prompt]
      simp only [hfil]
      rfl
  refine ⟨hbuild, ?_⟩
  intro callResult
  rw [identifyAttemptCalls, hbuild]

/-- Witness for C8: a single, disabled category. -/
theorem C8_config_failfast_witness :
    build_section_identification_prompt (sl "") (sl "") 1 (sl "t")
        (some [⟨sl "hate", sl "d", false⟩])
      = Except.error ConfigError.noEnabledCategories ∧
    identifyAttemptCalls (sl "") (sl "") 1 (sl "t")
        (some [⟨sl "hate", sl "d", false⟩]) none
      = (Except.error ConfigError.noEnabledCategories, 0) := by
  have h := C8_config_failfast (sl "") (sl "") 1 (sl "t")
    (some [⟨sl "hate", sl "d", false⟩]) (Or.inr ⟨_, rfl, rfl⟩)
  exact ⟨h.1, h.2 none⟩

end Clippy
